import Mathlib

/-!
Verification of the `bevy_collision` module of the `my_library` crate
(files `rect2d.rs`, `aabb.rs`, `static_quadtree.rs`, `mod.rs`).

The Rust code is shallowly embedded: `f32` coordinates are modelled as
exact rationals (all spec scenarios use dyadic or decimal values), `Vec2`
and the structs are mirrored field by field, the `smallest_node` loop and
the recursive `intersect` walk are given an explicit fuel argument (the
callers instantiate it with the node-vector length, which suffices because
child indices strictly increase), and `subdivide`'s recursion is driven by
a gas argument equal to `max_depth - depth`, which makes the definitions
kernel-computable while preserving the source's `depth < max_depth` guard.
`check_collisions` is modelled on explicit lists of bodies; the `HashMap`
spatial index is modelled as an association list and the emitted Bevy
events as a list of `(entity_a, entity_b)` pairs.
-/

/-- Embedding of bevy's `Vec2` with exact rational coordinates. -/
structure Vec2 where
  x : ℚ
  y : ℚ
deriving DecidableEq, Repr

instance : Add Vec2 := ⟨fun a b => ⟨a.x + b.x, a.y + b.y⟩⟩

instance : Sub Vec2 := ⟨fun a b => ⟨a.x - b.x, a.y - b.y⟩⟩

/-- Scalar division `v / s`, used for `screen_size / 2.0` and `(min + max) / 2.0`. -/
instance : HDiv Vec2 ℚ Vec2 := ⟨fun v s => ⟨v.x / s, v.y / s⟩⟩

/-- `Vec2::ZERO`. -/
def Vec2.zero : Vec2 := ⟨0, 0⟩

/-- `Rect2D` from `rect2d.rs`: a rectangle given by its two corners. -/
structure Rect2D where
  min : Vec2
  max : Vec2
deriving DecidableEq, Repr

/-- `Rect2D::new`. -/
def Rect2D.new (min max : Vec2) : Rect2D := ⟨min, max⟩

/-- `Rect2D::intersect`:
`self.min.x <= other.max.x && self.max.x >= other.min.x && self.min.y <= other.max.y && self.max.y >= other.min.y`. -/
def Rect2D.intersect (self other : Rect2D) : Bool :=
  decide (self.min.x ≤ other.max.x ∧ self.max.x ≥ other.min.x ∧
    self.min.y ≤ other.max.y ∧ self.max.y ≥ other.min.y)

/-- `Rect2D::center`: `(self.min + self.max) / 2.0`. -/
def Rect2D.center (self : Rect2D) : Vec2 := (self.min + self.max) / (2 : ℚ)

/-- `Rect2D::quadrants`: top-left, top-right, bottom-left, bottom-right. -/
def Rect2D.quadrants (self : Rect2D) : List Rect2D :=
  let center := self.center
  [Rect2D.new self.min center,
   Rect2D.new ⟨center.x, self.min.y⟩ ⟨self.max.x, center.y⟩,
   Rect2D.new ⟨self.min.x, center.y⟩ ⟨center.x, self.max.y⟩,
   Rect2D.new center self.max]

/-- `AxisAlignedBoundingBox` from `aabb.rs`. -/
structure AxisAlignedBoundingBox where
  half_size : Vec2
deriving DecidableEq, Repr

/-- `AxisAlignedBoundingBox::new(width, height)`. -/
def AxisAlignedBoundingBox.new (width height : ℚ) : AxisAlignedBoundingBox :=
  ⟨⟨width / 2, height / 2⟩⟩

/-- `AxisAlignedBoundingBox::as_rect(translate)`. -/
def AxisAlignedBoundingBox.as_rect (self : AxisAlignedBoundingBox) (translate : Vec2) : Rect2D :=
  Rect2D.new (translate - self.half_size) (translate + self.half_size)

/-- A node of the static quadtree (`static_quadtree.rs`): its bounds and,
unless it sits at the maximal depth, the indices of its four quadrant
children. -/
structure StaticQuadTreeNode where
  bounds : Rect2D
  children : Option (Nat × Nat × Nat × Nat)
deriving DecidableEq, Repr

instance : Inhabited StaticQuadTreeNode := ⟨⟨⟨⟨0, 0⟩, ⟨0, 0⟩⟩, none⟩⟩

/-- Index into the node vector (`nodes[i]`); a default node stands for the
out-of-bounds case, which the verified invariants rule out. -/
def nd (ns : List StaticQuadTreeNode) (i : Nat) : StaticQuadTreeNode :=
  ns.getD i default

/-- The non-recursive part of one `StaticQuadTree::subdivide` call: compute
the quadrants of `nodes[index].bounds`, record the four fresh indices as
`nodes[index].children`, and push the four quadrant nodes. -/
def subStep (nodes : List StaticQuadTreeNode) (index : Nat) : List StaticQuadTreeNode :=
  let n := nodes.length
  (nodes.set index ⟨(nd nodes index).bounds, some (n, n + 1, n + 2, n + 3)⟩) ++
    ((nd nodes index).bounds.quadrants.map fun q => ⟨q, none⟩)

/-- `subStep` followed by the four recursive calls of
`StaticQuadTree::subdivide`.  `gas` drives the recursion structurally; the
wrapper `subdivide` passes `max_depth - depth`, so the `gas = 0` fallback is
never taken when the source would recurse (`depth < max_depth` forces
`gas > 0` there). -/
def subdivideAux (nodes : List StaticQuadTreeNode) (index depth maxDepth gas : Nat) :
    List StaticQuadTreeNode :=
  let n := nodes.length
  let nodes' := subStep nodes index
  if depth < maxDepth then
    match gas with
    | 0 => nodes'
    | g + 1 =>
      subdivideAux
        (subdivideAux
          (subdivideAux
            (subdivideAux nodes' n (depth + 1) maxDepth g)
            (n + 1) (depth + 1) maxDepth g)
          (n + 2) (depth + 1) maxDepth g)
        (n + 3) (depth + 1) maxDepth g
  else nodes'

/-- `StaticQuadTree::subdivide`. -/
def subdivide (nodes : List StaticQuadTreeNode) (index depth maxDepth : Nat) :
    List StaticQuadTreeNode :=
  subdivideAux nodes index depth maxDepth (maxDepth - depth)

/-- `StaticQuadTree` resource: the vector of nodes. -/
structure StaticQuadTree where
  nodes : List StaticQuadTreeNode
deriving DecidableEq, Repr

/-- `StaticQuadTree::new(screen_size, max_depth)`. -/
def StaticQuadTree.new (screenSize : Vec2) (maxDepth : Nat) : StaticQuadTree :=
  let half := screenSize / (2 : ℚ)
  let top : StaticQuadTreeNode := ⟨Rect2D.new (Vec2.zero - half) half, none⟩
  ⟨subdivide [top] 0 1 maxDepth⟩

/-- The root bounds that `StaticQuadTree::new` installs at index 0. -/
def rootRect (screenSize : Vec2) : Rect2D :=
  Rect2D.new (Vec2.zero - screenSize / (2 : ℚ)) (screenSize / (2 : ℚ))

/-- The loop of `StaticQuadTree::smallest_node`, with explicit fuel.  Each
iteration filters the four children for those intersecting the target and
descends while exactly one matches. -/
def smallestNodeAux (ns : List StaticQuadTreeNode) (target : Rect2D) :
    Nat → Nat → Nat
  | 0, current => current
  | fuel + 1, current =>
    match (nd ns current).children with
    | some cs =>
      let ms := [cs.1, cs.2.1, cs.2.2.1, cs.2.2.2].filter
        fun child => (nd ns child).bounds.intersect target
      if ms.length = 1 then smallestNodeAux ns target fuel (ms.getD 0 0)
      else current
    | none => current

/-- `StaticQuadTree::smallest_node`; fuel `nodes.length` suffices because
child indices strictly increase along the descent. -/
def StaticQuadTree.smallest_node (self : StaticQuadTree) (target : Rect2D) : Nat :=
  smallestNodeAux self.nodes target self.nodes.length 0

/-- The visited-node trace of the `smallest_node` loop (the descent path,
starting at the root and ending at the returned index). -/
def smallestNodePathAux (ns : List StaticQuadTreeNode) (target : Rect2D) :
    Nat → Nat → List Nat
  | 0, current => [current]
  | fuel + 1, current =>
    match (nd ns current).children with
    | some cs =>
      let ms := [cs.1, cs.2.1, cs.2.2.1, cs.2.2.2].filter
        fun child => (nd ns child).bounds.intersect target
      if ms.length = 1 then current :: smallestNodePathAux ns target fuel (ms.getD 0 0)
      else [current]
    | none => [current]

/-- Descent path of `smallest_node` over a whole tree. -/
def StaticQuadTree.smallest_node_path (self : StaticQuadTree) (target : Rect2D) : List Nat :=
  smallestNodePathAux self.nodes target self.nodes.length 0

/-- `StaticQuadTree::intersect`, the recursive walk of `intersecting_nodes`,
with explicit fuel; the node is recorded before its children are visited. -/
def intersectAux (ns : List StaticQuadTreeNode) (target : Rect2D) :
    Nat → Nat → List Nat → List Nat
  | 0, _, result => result
  | fuel + 1, index, result =>
    if (nd ns index).bounds.intersect target then
      let result := result ++ [index]
      match (nd ns index).children with
      | some cs =>
        intersectAux ns target fuel cs.2.2.2
          (intersectAux ns target fuel cs.2.2.1
            (intersectAux ns target fuel cs.2.1
              (intersectAux ns target fuel cs.1 result)))
      | none => result
    else result

/-- `StaticQuadTree::intersecting_nodes` (the `HashSet` is modelled as the
visit list; only membership matters to the claims). -/
def StaticQuadTree.intersecting_nodes (self : StaticQuadTree) (target : Rect2D) : List Nat :=
  intersectAux self.nodes target self.nodes.length 0 []

/-- A tracked body, as seen by `check_collisions`: the `Entity` identifier,
the `PhysicsPosition::end_frame` position and the `AxisAlignedBoundingBox`. -/
structure Body where
  id : Nat
  end_frame : Vec2
  bbox : AxisAlignedBoundingBox
deriving DecidableEq, Repr

/-- The `Rect2D` of a body: `bbox.as_rect(transform.end_frame)`. -/
def bodyRect (b : Body) : Rect2D := b.bbox.as_rect b.end_frame

/-- Association-list lookup, modelling `HashMap::get`. -/
def alLookup (m : List (Nat × List (Nat × Rect2D))) (k : Nat) :
    Option (List (Nat × Rect2D)) :=
  match m with
  | [] => none
  | (k', v) :: rest => if k' = k then some v else alLookup rest k

/-- `if let Some(contents) = spatial_index.get_mut(&k) { contents.push(v) }
else { spatial_index.insert(k, vec![v]) }`. -/
def alInsertPush (m : List (Nat × List (Nat × Rect2D))) (k : Nat) (v : Nat × Rect2D) :
    List (Nat × List (Nat × Rect2D)) :=
  match m with
  | [] => [(k, [v])]
  | (k', vs) :: rest =>
    if k' = k then (k', vs ++ [v]) :: rest else (k', vs) :: alInsertPush rest k v

/-- The first loop of `check_collisions`: every body of category B is
registered under `smallest_node` of its rect. -/
def buildSpatialIndex (t : StaticQuadTree) (bs : List Body) :
    List (Nat × List (Nat × Rect2D)) :=
  bs.foldl (fun m b => alInsertPush m (t.smallest_node (bodyRect b)) (b.id, bodyRect b)) []

/-- Innermost loop of `check_collisions`: scan one bucket's contents and
emit an `OnCollision` pair for every distinct, intersecting B entry. -/
def scanBucket (a : Body) (events : List (Nat × Nat)) (contents : List (Nat × Rect2D)) :
    List (Nat × Nat) :=
  contents.foldl
    (fun events bp =>
      if a.id ≠ bp.1 ∧ (bodyRect a).intersect bp.2 = true then events ++ [(a.id, bp.1)]
      else events)
    events

/-- Body of the per-node loop: `if let Some(contents) = spatial_index.get(&node)`. -/
def scanNode (spatial_index : List (Nat × List (Nat × Rect2D))) (a : Body)
    (events : List (Nat × Nat)) (node : Nat) : List (Nat × Nat) :=
  match alLookup spatial_index node with
  | some contents => scanBucket a events contents
  | none => events

/-- Per-A-body loop: `for node in quad_tree.intersecting_nodes(&bbox_a)`. -/
def scanNodes (t : StaticQuadTree) (spatial_index : List (Nat × List (Nat × Rect2D)))
    (a : Body) (events : List (Nat × Nat)) : List (Nat × Nat) :=
  (t.intersecting_nodes (bodyRect a)).foldl (scanNode spatial_index a) events

/-- The second loop of `check_collisions`: for each body of category A, scan
the buckets of all intersecting nodes; the emitted `OnCollision` events are
collected as `(entity_a, entity_b)` pairs. -/
def check_collisions (t : StaticQuadTree) (queryA queryB : List Body) :
    List (Nat × Nat) :=
  let spatial_index := buildSpatialIndex t queryB
  queryA.foldl (fun events a => scanNodes t spatial_index a events) []

/-- Number of nodes appended by one `subdivide` call, as a function of
`max_depth - depth` (clamped at 0). -/
def g4 : Nat → Nat
  | 0 => 4
  | k + 1 => 4 + 4 * g4 k

/-- Children well-formedness: every stored child index is strictly larger
than its parent's index and in bounds. -/
def ChildrenWF (t : List StaticQuadTreeNode) : Prop :=
  ∀ i cs, (nd t i).children = some cs →
    (i < cs.1 ∧ cs.1 < t.length) ∧ (i < cs.2.1 ∧ cs.2.1 < t.length) ∧
    (i < cs.2.2.1 ∧ cs.2.2.1 < t.length) ∧ (i < cs.2.2.2 ∧ cs.2.2.2 < t.length)

/-- The bodies of `bs` that `check_collisions` files under node `n`, in
iteration order, as `(entity, rect)` pairs. -/
def bucketList (t : StaticQuadTree) (bs : List Body) (n : Nat) : List (Nat × Rect2D) :=
  (bs.filter fun b => decide (t.smallest_node (bodyRect b) = n)).map fun b => (b.id, bodyRect b)

/-- A small body centered at the origin, used for concrete scenarios. -/
def bodyCenter : Body := ⟨7, ⟨0, 0⟩, AxisAlignedBoundingBox.new 2 2⟩

/-- Parallel depth recorder: appends the depths of the nodes in exactly the
order `subdivideAux` appends nodes (four entries of the current depth, then
the four recursive calls). -/
def subdivideDAux (ds : List Nat) (depth maxDepth gas : Nat) : List Nat :=
  let ds' := ds ++ [depth, depth, depth, depth]
  if depth < maxDepth then
    match gas with
    | 0 => ds'
    | g + 1 =>
      subdivideDAux
        (subdivideDAux
          (subdivideDAux
            (subdivideDAux ds' (depth + 1) maxDepth g)
            (depth + 1) maxDepth g)
          (depth + 1) maxDepth g)
        (depth + 1) maxDepth g
  else ds'

/-- Depth of each node of `StaticQuadTree::new`'s vector, position by
position (the root at depth 0). -/
def nodeDepths (maxDepth : Nat) : List Nat :=
  subdivideDAux [0] 1 maxDepth (maxDepth - 1)

/-- A root-to-node chain in the tree along stored child links, every node of
which intersects `target` — exactly the nodes the `intersecting_nodes` walk
descends through. -/
inductive ReachChain (ns : List StaticQuadTreeNode) (target : Rect2D) : Nat → Nat → Prop where
  | here (i : Nat) (hint : (nd ns i).bounds.intersect target = true) :
      ReachChain ns target i i
  | step (i c j : Nat) (cs : Nat × Nat × Nat × Nat)
      (hc : (nd ns i).children = some cs)
      (hmem : c = cs.1 ∨ c = cs.2.1 ∨ c = cs.2.2.1 ∨ c = cs.2.2.2)
      (hint : (nd ns i).bounds.intersect target = true)
      (htail : ReachChain ns target c j) : ReachChain ns target i j

/-- `inner` lies (not necessarily strictly) within `outer`. -/
def Rect2D.insideOf (inner outer : Rect2D) : Prop :=
  outer.min.x ≤ inner.min.x ∧ inner.max.x ≤ outer.max.x ∧
  outer.min.y ≤ inner.min.y ∧ inner.max.y ≤ outer.max.y

/-- The documented rectangle invariant. -/
def Rect2D.valid (r : Rect2D) : Prop :=
  r.min.x ≤ r.max.x ∧ r.min.y ≤ r.max.y

/-- Quadrant-structure invariant: stored children carry exactly the four
quadrants of their parent's bounds, in `Rect2D::quadrants` order. -/
def StructWF (t : List StaticQuadTreeNode) : Prop :=
  ∀ i cs, (nd t i).children = some cs →
    (nd t cs.1).bounds = Rect2D.new (nd t i).bounds.min (nd t i).bounds.center ∧
    (nd t cs.2.1).bounds =
      Rect2D.new ⟨(nd t i).bounds.center.x, (nd t i).bounds.min.y⟩
        ⟨(nd t i).bounds.max.x, (nd t i).bounds.center.y⟩ ∧
    (nd t cs.2.2.1).bounds =
      Rect2D.new ⟨(nd t i).bounds.min.x, (nd t i).bounds.center.y⟩
        ⟨(nd t i).bounds.center.x, (nd t i).bounds.max.y⟩ ∧
    (nd t cs.2.2.2).bounds = Rect2D.new (nd t i).bounds.center (nd t i).bounds.max

/-- All node bounds satisfy the rectangle invariant. -/
def ValidBounds (t : List StaticQuadTreeNode) : Prop :=
  ∀ i, (nd t i).bounds.valid

/-- Descendant relation along stored child links. -/
inductive Desc (t : List StaticQuadTreeNode) : Nat → Nat → Prop where
  | refl (i : Nat) : Desc t i i
  | step (i c j : Nat) (cs : Nat × Nat × Nat × Nat)
      (hc : (nd t i).children = some cs)
      (hmem : c = cs.1 ∨ c = cs.2.1 ∨ c = cs.2.2.1 ∨ c = cs.2.2.2)
      (htail : Desc t c j) : Desc t i j

/-- A body protruding beyond the world's right edge, and another body fully
outside the world overlapping it: the pair the collision pass misses. -/
def bodyOutA : Body := ⟨1, ⟨19/2, 1⟩, AxisAlignedBoundingBox.new 2 1⟩

def bodyOutB : Body := ⟨2, ⟨8, 1⟩, AxisAlignedBoundingBox.new 2 1⟩

@[simp] theorem Vec2.add_x (a b : Vec2) : (a + b).x = a.x + b.x := rfl

@[simp] theorem Vec2.add_y (a b : Vec2) : (a + b).y = a.y + b.y := rfl

@[simp] theorem Vec2.sub_x (a b : Vec2) : (a - b).x = a.x - b.x := rfl

@[simp] theorem Vec2.sub_y (a b : Vec2) : (a - b).y = a.y - b.y := rfl

@[simp] theorem Vec2.div_x (a : Vec2) (s : ℚ) : (a / s).x = a.x / s := rfl

@[simp] theorem Vec2.div_y (a : Vec2) (s : ℚ) : (a / s).y = a.y / s := rfl

@[simp] theorem Vec2.mk_add (a b c d : ℚ) : (⟨a, b⟩ : Vec2) + ⟨c, d⟩ = ⟨a + c, b + d⟩ := rfl

@[simp] theorem Vec2.mk_sub (a b c d : ℚ) : (⟨a, b⟩ : Vec2) - ⟨c, d⟩ = ⟨a - c, b - d⟩ := rfl

@[simp] theorem Vec2.mk_div (a b s : ℚ) : (⟨a, b⟩ : Vec2) / s = ⟨a / s, b / s⟩ := rfl

theorem Rect2D.intersect_eq_true_iff (a b : Rect2D) :
    a.intersect b = true ↔
      (a.min.x ≤ b.max.x ∧ a.max.x ≥ b.min.x ∧ a.min.y ≤ b.max.y ∧ a.max.y ≥ b.min.y) := by
  simp [Rect2D.intersect]

theorem Rect2D.intersect_eq_false_iff (a b : Rect2D) :
    a.intersect b = false ↔
      ¬ (a.min.x ≤ b.max.x ∧ a.max.x ≥ b.min.x ∧ a.min.y ≤ b.max.y ∧ a.max.y ≥ b.min.y) := by
  simp [Rect2D.intersect]

/-- C7: `Rect2D::intersect` is symmetric for arbitrary corner pairs. -/
theorem claim_C7_intersect_symm (a b : Rect2D) : a.intersect b = b.intersect a := by
  simp only [Rect2D.intersect, decide_eq_decide, ge_iff_le]
  constructor
  · rintro ⟨h1, h2, h3, h4⟩; exact ⟨h2, h1, h4, h3⟩
  · rintro ⟨h1, h2, h3, h4⟩; exact ⟨h2, h1, h4, h3⟩

/-- C8: a rectangle satisfying the documented invariant
`min.x ≤ max.x ∧ min.y ≤ max.y` intersects itself. -/
theorem claim_C8_intersect_self (a : Rect2D)
    (hx : a.min.x ≤ a.max.x) (hy : a.min.y ≤ a.max.y) : a.intersect a = true := by
  rw [Rect2D.intersect_eq_true_iff]
  exact ⟨hx, hx, hy, hy⟩

theorem claim_C8_witness :
    Rect2D.intersect ⟨⟨0, 0⟩, ⟨4, 4⟩⟩ ⟨⟨0, 0⟩, ⟨4, 4⟩⟩ = true :=
  claim_C8_intersect_self ⟨⟨0, 0⟩, ⟨4, 4⟩⟩ (by norm_num) (by norm_num)

/-- C5: the intersection test is a closed-interval test — rectangles that
merely touch along an edge intersect; and concretely, 8×8 bodies (half-width
4) placed at x = 0 and x = 7.9 on the same y intersect, while at x = 8.1
they do not. -/
theorem claim_C5_closed_interval :
    (∀ a b : Rect2D, a.max.x = b.min.x → a.min.x ≤ b.max.x →
      a.min.y ≤ b.max.y → b.min.y ≤ a.max.y → a.intersect b = true) ∧
    ((AxisAlignedBoundingBox.new 8 8).as_rect ⟨0, 0⟩).intersect
      ((AxisAlignedBoundingBox.new 8 8).as_rect ⟨79/10, 0⟩) = true ∧
    ((AxisAlignedBoundingBox.new 8 8).as_rect ⟨0, 0⟩).intersect
      ((AxisAlignedBoundingBox.new 8 8).as_rect ⟨81/10, 0⟩) = false := by
  refine ⟨fun a b he h1 h2 h3 => ?_, ?_, ?_⟩
  · rw [Rect2D.intersect_eq_true_iff]
    exact ⟨h1, le_of_eq he.symm, h2, h3⟩
  · rw [Rect2D.intersect_eq_true_iff]
    norm_num [AxisAlignedBoundingBox.new, AxisAlignedBoundingBox.as_rect, Rect2D.new]
  · rw [Rect2D.intersect_eq_false_iff]
    norm_num [AxisAlignedBoundingBox.new, AxisAlignedBoundingBox.as_rect, Rect2D.new]

theorem claim_C5_witness :
    Rect2D.intersect ⟨⟨0, 0⟩, ⟨4, 4⟩⟩ ⟨⟨4, 0⟩, ⟨8, 4⟩⟩ = true :=
  claim_C5_closed_interval.1 ⟨⟨0, 0⟩, ⟨4, 4⟩⟩ ⟨⟨4, 0⟩, ⟨8, 4⟩⟩
    (by norm_num) (by norm_num) (by norm_num) (by norm_num)


theorem nd_set_self (ns : List StaticQuadTreeNode) (i : Nat) (v : StaticQuadTreeNode)
    (h : i < ns.length) : nd (ns.set i v) i = v := by
  simp [nd, List.getD, List.getElem?_set_self, h]

theorem nd_set_ne (ns : List StaticQuadTreeNode) (i j : Nat) (v : StaticQuadTreeNode)
    (h : i ≠ j) : nd (ns.set i v) j = nd ns j := by
  simp [nd, List.getD, List.getElem?_set_ne h]

theorem nd_append_left (ns ms : List StaticQuadTreeNode) (i : Nat)
    (h : i < ns.length) : nd (ns ++ ms) i = nd ns i := by
  simp [nd, List.getD, List.getElem?_append, h]

theorem nd_append_right (ns ms : List StaticQuadTreeNode) (i : Nat)
    (h : ns.length ≤ i) : nd (ns ++ ms) i = nd ms (i - ns.length) := by
  simp [nd, List.getD, List.getElem?_append, h, Nat.not_lt_of_le h]

theorem subStep_length (nodes : List StaticQuadTreeNode) (index : Nat) :
    (subStep nodes index).length = nodes.length + 4 := by
  simp [subStep, Rect2D.quadrants]

theorem nd_subStep_old (nodes : List StaticQuadTreeNode) (index i : Nat)
    (hi : i < nodes.length) (hne : i ≠ index) :
    nd (subStep nodes index) i = nd nodes i := by
  rw [subStep]
  rw [nd_append_left _ _ _ (by simpa using hi), nd_set_ne _ _ _ _ (Ne.symm hne)]

theorem nd_subStep_index (nodes : List StaticQuadTreeNode) (index : Nat)
    (hidx : index < nodes.length) :
    nd (subStep nodes index) index =
      ⟨(nd nodes index).bounds,
        some (nodes.length, nodes.length + 1, nodes.length + 2, nodes.length + 3)⟩ := by
  rw [subStep]
  rw [nd_append_left _ _ _ (by simpa using hidx), nd_set_self _ _ _ hidx]

theorem nd_subStep_new (nodes : List StaticQuadTreeNode) (index k : Nat) (hk : k < 4) :
    nd (subStep nodes index) (nodes.length + k) =
      ⟨(nd nodes index).bounds.quadrants.getD k ⟨⟨0, 0⟩, ⟨0, 0⟩⟩, none⟩ := by
  rw [subStep]
  rw [nd_append_right _ _ _ (by simp)]
  simp only [List.length_set, Nat.add_sub_cancel_left]
  interval_cases k <;> simp [Rect2D.quadrants, nd, List.getD]

theorem subdivideAux_length_mono (gas : Nat) :
    ∀ nodes index depth maxDepth,
      nodes.length ≤ (subdivideAux nodes index depth maxDepth gas).length := by
  induction gas with
  | zero =>
    intro nodes index depth maxDepth
    rw [subdivideAux]
    split <;> simp [subStep_length]
  | succ g ih =>
    intro nodes index depth maxDepth
    rw [subdivideAux]
    split
    · exact le_trans (by rw [subStep_length]; omega)
        (le_trans (ih _ _ _ _)
          (le_trans (ih _ _ _ _) (le_trans (ih _ _ _ _) (ih _ _ _ _))))
    · simp [subStep_length]

theorem subdivideAux_length (gas : Nat) :
    ∀ nodes index depth maxDepth, maxDepth ≤ depth + gas →
      (subdivideAux nodes index depth maxDepth gas).length =
        nodes.length + g4 (maxDepth - depth) := by
  induction gas with
  | zero =>
    intro nodes index depth maxDepth h
    have hd : ¬ depth < maxDepth := by omega
    have h0 : maxDepth - depth = 0 := by omega
    rw [subdivideAux]
    simp [hd, h0, g4, subStep_length]
  | succ g ih =>
    intro nodes index depth maxDepth h
    by_cases hd : depth < maxDepth
    · have h1 : maxDepth ≤ (depth + 1) + g := by omega
      have hk : maxDepth - depth = (maxDepth - (depth + 1)) + 1 := by omega
      rw [subdivideAux]
      simp only [hd, if_true]
      rw [ih _ _ _ _ h1, ih _ _ _ _ h1, ih _ _ _ _ h1, ih _ _ _ _ h1, subStep_length, hk]
      simp [g4]
      ring
    · have h0 : maxDepth - depth = 0 := by omega
      rw [subdivideAux]
      simp [hd, h0, g4, subStep_length]

theorem subdivideAux_nd_preserve (gas : Nat) :
    ∀ nodes index depth maxDepth i, i < nodes.length → i ≠ index →
      nd (subdivideAux nodes index depth maxDepth gas) i = nd nodes i := by
  induction gas with
  | zero =>
    intro nodes index depth maxDepth i hi hne
    rw [subdivideAux]
    split <;> exact nd_subStep_old nodes index i hi hne
  | succ g ih =>
    intro nodes index depth maxDepth i hi hne
    rw [subdivideAux]
    split
    · have hs := subStep_length nodes index
      have l1 := subdivideAux_length_mono g (subStep nodes index) nodes.length
        (depth + 1) maxDepth
      have l2 := subdivideAux_length_mono g
        (subdivideAux (subStep nodes index) nodes.length (depth + 1) maxDepth g)
        (nodes.length + 1) (depth + 1) maxDepth
      have l3 := subdivideAux_length_mono g
        (subdivideAux (subdivideAux (subStep nodes index) nodes.length (depth + 1) maxDepth g)
          (nodes.length + 1) (depth + 1) maxDepth g)
        (nodes.length + 2) (depth + 1) maxDepth
      rw [ih _ _ _ _ i (by omega) (by omega), ih _ _ _ _ i (by omega) (by omega),
        ih _ _ _ _ i (by omega) (by omega), ih _ _ _ _ i (by omega) (by omega)]
      exact nd_subStep_old nodes index i hi hne
    · exact nd_subStep_old nodes index i hi hne

theorem subdivideAux_nd_index (gas : Nat) :
    ∀ nodes index depth maxDepth, index < nodes.length →
      nd (subdivideAux nodes index depth maxDepth gas) index =
        ⟨(nd nodes index).bounds,
          some (nodes.length, nodes.length + 1, nodes.length + 2, nodes.length + 3)⟩ := by
  intro nodes index depth maxDepth hidx
  cases gas with
  | zero =>
    rw [subdivideAux]
    split <;> exact nd_subStep_index nodes index hidx
  | succ g =>
    rw [subdivideAux]
    split
    · have hs := subStep_length nodes index
      have l1 := subdivideAux_length_mono g (subStep nodes index) nodes.length
        (depth + 1) maxDepth
      have l2 := subdivideAux_length_mono g
        (subdivideAux (subStep nodes index) nodes.length (depth + 1) maxDepth g)
        (nodes.length + 1) (depth + 1) maxDepth
      have l3 := subdivideAux_length_mono g
        (subdivideAux (subdivideAux (subStep nodes index) nodes.length (depth + 1) maxDepth g)
          (nodes.length + 1) (depth + 1) maxDepth g)
        (nodes.length + 2) (depth + 1) maxDepth
      rw [subdivideAux_nd_preserve g _ _ _ _ index (by omega) (by omega),
        subdivideAux_nd_preserve g _ _ _ _ index (by omega) (by omega),
        subdivideAux_nd_preserve g _ _ _ _ index (by omega) (by omega),
        subdivideAux_nd_preserve g _ _ _ _ index (by omega) (by omega)]
      exact nd_subStep_index nodes index hidx
    · exact nd_subStep_index nodes index hidx

theorem nd_of_le (ns : List StaticQuadTreeNode) (i : Nat) (h : ns.length ≤ i) :
    nd ns i = default := by
  simp [nd, List.getD, List.getElem?_eq_none h]

theorem children_wf_subStep (nodes : List StaticQuadTreeNode) (index : Nat)
    (hidx : index < nodes.length) (h : ChildrenWF nodes) :
    ChildrenWF (subStep nodes index) := by
  intro i cs hcs
  rw [subStep_length]
  by_cases hi : i = index
  · subst hi
    rw [nd_subStep_index _ _ hidx] at hcs
    simp only [Option.some.injEq] at hcs
    subst hcs
    simp only
    omega
  · by_cases hlt : i < nodes.length
    · rw [nd_subStep_old _ _ _ hlt hi] at hcs
      have := h i cs hcs
      omega
    · by_cases hlt4 : i < nodes.length + 4
      · have hk : i = nodes.length + (i - nodes.length) := by omega
        rw [hk, nd_subStep_new nodes index _ (by omega)] at hcs
        simp at hcs
      · rw [nd_of_le _ _ (by rw [subStep_length]; omega)] at hcs
        simp [default] at hcs

theorem children_wf_subdivideAux (gas : Nat) :
    ∀ nodes index depth maxDepth, index < nodes.length → ChildrenWF nodes →
      ChildrenWF (subdivideAux nodes index depth maxDepth gas) := by
  induction gas with
  | zero =>
    intro nodes index depth maxDepth hidx h
    rw [subdivideAux]
    split <;> exact children_wf_subStep nodes index hidx h
  | succ g ih =>
    intro nodes index depth maxDepth hidx h
    rw [subdivideAux]
    split
    · have hs := subStep_length nodes index
      have l1 := subdivideAux_length_mono g (subStep nodes index) nodes.length
        (depth + 1) maxDepth
      have l2 := subdivideAux_length_mono g
        (subdivideAux (subStep nodes index) nodes.length (depth + 1) maxDepth g)
        (nodes.length + 1) (depth + 1) maxDepth
      have l3 := subdivideAux_length_mono g
        (subdivideAux (subdivideAux (subStep nodes index) nodes.length (depth + 1) maxDepth g)
          (nodes.length + 1) (depth + 1) maxDepth g)
        (nodes.length + 2) (depth + 1) maxDepth
      exact ih _ _ _ _ (by omega)
        (ih _ _ _ _ (by omega)
          (ih _ _ _ _ (by omega)
            (ih _ _ _ _ (by omega) (children_wf_subStep nodes index hidx h))))
    · exact children_wf_subStep nodes index hidx h

/-- The one-node list `StaticQuadTree::new` starts from. -/
theorem children_wf_single (v : StaticQuadTreeNode) (h : v.children = none) :
    ChildrenWF [v] := by
  intro i cs hcs
  match i with
  | 0 => rw [show nd [v] 0 = v from rfl, h] at hcs; simp at hcs
  | j + 1 =>
    rw [nd_of_le _ _ (by simp)] at hcs
    simp [default] at hcs

/-- C10 invariant on built trees. -/
theorem new_children_wf (screenSize : Vec2) (maxDepth : Nat) :
    ChildrenWF (StaticQuadTree.new screenSize maxDepth).nodes := by
  exact children_wf_subdivideAux _ _ _ _ _ (by simp) (children_wf_single _ rfl)

theorem new_length (screenSize : Vec2) (maxDepth : Nat) :
    (StaticQuadTree.new screenSize maxDepth).nodes.length = 1 + g4 (maxDepth - 1) := by
  have h := subdivideAux_length (maxDepth - 1)
    [⟨Rect2D.new (Vec2.zero - screenSize / (2 : ℚ)) (screenSize / (2 : ℚ)), none⟩]
    0 1 maxDepth (by omega)
  simpa [StaticQuadTree.new, subdivide] using h

theorem new_root_bounds (screenSize : Vec2) (maxDepth : Nat) :
    (nd (StaticQuadTree.new screenSize maxDepth).nodes 0).bounds = rootRect screenSize := by
  have h := subdivideAux_nd_index (maxDepth - 1)
    [⟨Rect2D.new (Vec2.zero - screenSize / (2 : ℚ)) (screenSize / (2 : ℚ)), none⟩]
    0 1 maxDepth (by simp)
  rw [StaticQuadTree.new, subdivide]
  simp only at h
  rw [h]
  rfl

theorem new_root_children (screenSize : Vec2) (maxDepth : Nat) :
    (nd (StaticQuadTree.new screenSize maxDepth).nodes 0).children = some (1, 2, 3, 4) := by
  have h := subdivideAux_nd_index (maxDepth - 1)
    [⟨Rect2D.new (Vec2.zero - screenSize / (2 : ℚ)) (screenSize / (2 : ℚ)), none⟩]
    0 1 maxDepth (by simp)
  rw [StaticQuadTree.new, subdivide]
  simp only at h
  rw [h]
  simp

theorem g4_closed (k : Nat) : 3 * g4 k = 4 ^ (k + 2) - 4 := by
  induction k with
  | zero => rw [g4]; norm_num
  | succ n ih =>
    have h4 : 4 ≤ 4 ^ (n + 2) := by
      calc (4 : Nat) = 4 ^ 1 := by norm_num
      _ ≤ 4 ^ (n + 2) := Nat.pow_le_pow_right (by norm_num) (by omega)
    rw [g4, show n + 1 + 2 = (n + 2) + 1 from rfl, pow_succ]
    omega

theorem mem_of_filter_getD (l : List Nat) (p : Nat → Bool) (h : 0 < (l.filter p).length) :
    (l.filter p).getD 0 0 ∈ l ∧ p ((l.filter p).getD 0 0) = true := by
  rcases hl : l.filter p with _ | ⟨a, rest⟩
  · rw [hl] at h; simp at h
  · have ha : a ∈ l.filter p := by rw [hl]; exact List.mem_cons_self a rest
    have := List.mem_filter.mp ha
    simpa [hl] using this

theorem smallest_child_facts (ns : List StaticQuadTreeNode) (target : Rect2D)
    (hwf : ChildrenWF ns) (cur : Nat) (cs : Nat × Nat × Nat × Nat)
    (hc : (nd ns cur).children = some cs)
    (h : 0 < (([cs.1, cs.2.1, cs.2.2.1, cs.2.2.2].filter
      fun child => (nd ns child).bounds.intersect target)).length) :
    cur < (([cs.1, cs.2.1, cs.2.2.1, cs.2.2.2].filter
        fun child => (nd ns child).bounds.intersect target)).getD 0 0 ∧
      (([cs.1, cs.2.1, cs.2.2.1, cs.2.2.2].filter
        fun child => (nd ns child).bounds.intersect target)).getD 0 0 < ns.length ∧
      ((([cs.1, cs.2.1, cs.2.2.1, cs.2.2.2].filter
        fun child => (nd ns child).bounds.intersect target)).getD 0 0 = cs.1 ∨
        (([cs.1, cs.2.1, cs.2.2.1, cs.2.2.2].filter
        fun child => (nd ns child).bounds.intersect target)).getD 0 0 = cs.2.1 ∨
        (([cs.1, cs.2.1, cs.2.2.1, cs.2.2.2].filter
        fun child => (nd ns child).bounds.intersect target)).getD 0 0 = cs.2.2.1 ∨
        (([cs.1, cs.2.1, cs.2.2.1, cs.2.2.2].filter
        fun child => (nd ns child).bounds.intersect target)).getD 0 0 = cs.2.2.2) ∧
      (nd ns ((([cs.1, cs.2.1, cs.2.2.1, cs.2.2.2].filter
        fun child => (nd ns child).bounds.intersect target)).getD 0 0)).bounds.intersect
        target = true := by
  obtain ⟨hmem, hp⟩ := mem_of_filter_getD [cs.1, cs.2.1, cs.2.2.1, cs.2.2.2]
    (fun child => (nd ns child).bounds.intersect target) h
  have hwfc := hwf cur cs hc
  simp only [List.mem_cons, List.not_mem_nil, or_false] at hmem
  rcases hmem with h1 | h1 | h1 | h1 <;> rw [h1] <;>
    exact ⟨by omega, by omega, by tauto, by rw [← h1]; exact hp⟩

theorem smallestNodeAux_lt (ns : List StaticQuadTreeNode) (target : Rect2D)
    (hwf : ChildrenWF ns) :
    ∀ fuel cur, cur < ns.length →
      cur ≤ smallestNodeAux ns target fuel cur ∧
        smallestNodeAux ns target fuel cur < ns.length := by
  intro fuel
  induction fuel with
  | zero => intro cur hcur; rw [smallestNodeAux]; exact ⟨le_refl _, hcur⟩
  | succ f ih =>
    intro cur hcur
    rw [smallestNodeAux]
    rcases hc : (nd ns cur).children with _ | cs
    · simp only [hc]
      exact ⟨le_refl _, hcur⟩
    · simp only [hc]
      by_cases hm : (([cs.1, cs.2.1, cs.2.2.1, cs.2.2.2].filter
          fun child => (nd ns child).bounds.intersect target)).length = 1
      · simp only [hm, if_true]
        obtain ⟨hgt, hlt, _, _⟩ := smallest_child_facts ns target hwf cur cs hc (by omega)
        obtain ⟨ih1, ih2⟩ := ih _ hlt
        exact ⟨by omega, ih2⟩
      · simp only [hm, if_false]
        exact ⟨le_refl _, hcur⟩

theorem smallestNodeAux_fuel (ns : List StaticQuadTreeNode) (target : Rect2D)
    (hwf : ChildrenWF ns) :
    ∀ f1 f2 cur, cur < ns.length → ns.length - cur ≤ f1 → ns.length - cur ≤ f2 →
      smallestNodeAux ns target f1 cur = smallestNodeAux ns target f2 cur := by
  intro f1
  induction f1 with
  | zero => intro f2 cur hcur h1 h2; omega
  | succ f ih =>
    intro f2 cur hcur h1 h2
    cases f2 with
    | zero => omega
    | succ f2' =>
      rw [smallestNodeAux, smallestNodeAux]
      rcases hc : (nd ns cur).children with _ | cs
      · simp only [hc]
      · simp only [hc]
        by_cases hm : (([cs.1, cs.2.1, cs.2.2.1, cs.2.2.2].filter
            fun child => (nd ns child).bounds.intersect target)).length = 1
        · simp only [hm, if_true]
          obtain ⟨hgt, hlt, _, _⟩ := smallest_child_facts ns target hwf cur cs hc (by omega)
          exact ih f2' _ hlt (by omega) (by omega)
        · simp only [hm, if_false]

theorem intersectAux_acc_mono (ns : List StaticQuadTreeNode) (target : Rect2D) :
    ∀ fuel idx acc j, j ∈ acc → j ∈ intersectAux ns target fuel idx acc := by
  intro fuel
  induction fuel with
  | zero => intro idx acc j hj; rw [intersectAux]; exact hj
  | succ f ih =>
    intro idx acc j hj
    rw [intersectAux]
    cases hb : (nd ns idx).bounds.intersect target with
    | false => simp only [hb]; exact hj
    | true =>
      simp only [hb]
      rcases hc : (nd ns idx).children with _ | cs
      · simp only [hc]
        exact List.mem_append_left _ hj
      · simp only [hc]
        exact ih _ _ _ (ih _ _ _ (ih _ _ _ (ih _ _ _ (List.mem_append_left _ hj))))

theorem intersectAux_fuel (ns : List StaticQuadTreeNode) (target : Rect2D)
    (hwf : ChildrenWF ns) :
    ∀ f1 f2 idx acc, idx < ns.length → ns.length - idx ≤ f1 → ns.length - idx ≤ f2 →
      intersectAux ns target f1 idx acc = intersectAux ns target f2 idx acc := by
  intro f1
  induction f1 with
  | zero => intro f2 idx acc hidx h1 h2; omega
  | succ f ih =>
    intro f2 idx acc hidx h1 h2
    cases f2 with
    | zero => omega
    | succ f2' =>
      rw [intersectAux, intersectAux]
      cases hb : (nd ns idx).bounds.intersect target with
      | false => simp [hb]
      | true =>
        simp only [hb]
        rcases hc : (nd ns idx).children with _ | cs
        · simp only [hc]
        · simp only [hc]
          have hwfc := hwf idx cs hc
          rw [ih f2' cs.1 (acc ++ [idx]) (by omega) (by omega) (by omega)]
          rw [ih f2' cs.2.1 (intersectAux ns target f2' cs.1 (acc ++ [idx]))
            (by omega) (by omega) (by omega)]
          rw [ih f2' cs.2.2.1 (intersectAux ns target f2' cs.2.1
            (intersectAux ns target f2' cs.1 (acc ++ [idx])))
            (by omega) (by omega) (by omega)]
          rw [ih f2' cs.2.2.2 (intersectAux ns target f2' cs.2.2.1
            (intersectAux ns target f2' cs.2.1
              (intersectAux ns target f2' cs.1 (acc ++ [idx]))))
            (by omega) (by omega) (by omega)]

/-- C10: in every tree built by `StaticQuadTree::new`, all stored child
indices are in bounds and strictly larger than their parent's index, and as
a consequence both the `smallest_node` descent loop and the recursive
`intersecting_nodes` walk are insensitive to any fuel of at least
`nodes.len()` — i.e. they terminate without ever indexing out of bounds. -/
theorem claim_C10_tree_safety (screenSize : Vec2) (maxDepth : Nat) :
    ChildrenWF (StaticQuadTree.new screenSize maxDepth).nodes ∧
    (∀ target fuel, (StaticQuadTree.new screenSize maxDepth).nodes.length ≤ fuel →
      smallestNodeAux (StaticQuadTree.new screenSize maxDepth).nodes target fuel 0 =
        (StaticQuadTree.new screenSize maxDepth).smallest_node target) ∧
    (∀ target fuel acc, (StaticQuadTree.new screenSize maxDepth).nodes.length ≤ fuel →
      intersectAux (StaticQuadTree.new screenSize maxDepth).nodes target fuel 0 acc =
        intersectAux (StaticQuadTree.new screenSize maxDepth).nodes target
          (StaticQuadTree.new screenSize maxDepth).nodes.length 0 acc) := by
  have hwf := new_children_wf screenSize maxDepth
  have hlen : 0 < (StaticQuadTree.new screenSize maxDepth).nodes.length := by
    rw [new_length]; omega
  refine ⟨hwf, fun target fuel hf => ?_, fun target fuel acc hf => ?_⟩
  · exact smallestNodeAux_fuel _ target hwf fuel _ 0 hlen (by omega) (by omega)
  · exact intersectAux_fuel _ target hwf fuel _ 0 acc hlen (by omega) (by omega)

theorem claim_C10_witness :
    smallestNodeAux (StaticQuadTree.new ⟨16, 16⟩ 1).nodes ⟨⟨0, 0⟩, ⟨1, 1⟩⟩ 9 0 =
      (StaticQuadTree.new ⟨16, 16⟩ 1).smallest_node ⟨⟨0, 0⟩, ⟨1, 1⟩⟩ :=
  (claim_C10_tree_safety ⟨16, 16⟩ 1).2.1 ⟨⟨0, 0⟩, ⟨1, 1⟩⟩ 9
    (by rw [new_length]; norm_num [g4])

theorem alLookup_insertPush_self (m : List (Nat × List (Nat × Rect2D))) (k : Nat)
    (v : Nat × Rect2D) :
    alLookup (alInsertPush m k v) k = some ((alLookup m k).getD [] ++ [v]) := by
  induction m with
  | nil => simp [alLookup, alInsertPush]
  | cons hd rest ih =>
    obtain ⟨k', vs⟩ := hd
    by_cases hk : k' = k
    · subst hk
      simp [alLookup, alInsertPush]
    · simp only [alInsertPush, alLookup, hk, if_false]
      exact ih

theorem alLookup_insertPush_ne (m : List (Nat × List (Nat × Rect2D))) (k n : Nat)
    (v : Nat × Rect2D) (h : k ≠ n) :
    alLookup (alInsertPush m k v) n = alLookup m n := by
  induction m with
  | nil => simp [alLookup, alInsertPush, h]
  | cons hd rest ih =>
    obtain ⟨k', vs⟩ := hd
    by_cases hk : k' = k
    · subst hk
      simp [alLookup, alInsertPush, h]
    · simp only [alInsertPush, alLookup, hk, if_false]
      split
      · rfl
      · exact ih

theorem alLookup_fold (t : StaticQuadTree) :
    ∀ (bs : List Body) (m : List (Nat × List (Nat × Rect2D))) (n : Nat),
      alLookup (bs.foldl
        (fun m b => alInsertPush m (t.smallest_node (bodyRect b)) (b.id, bodyRect b)) m) n =
      if bucketList t bs n = [] then alLookup m n
      else some ((alLookup m n).getD [] ++ bucketList t bs n) := by
  intro bs
  induction bs with
  | nil => intro m n; simp [bucketList]
  | cons b rest ih =>
    intro m n
    rw [List.foldl_cons, ih]
    by_cases hk : t.smallest_node (bodyRect b) = n
    · subst hk
      have hbl : bucketList t (b :: rest) (t.smallest_node (bodyRect b)) =
          (b.id, bodyRect b) :: bucketList t rest (t.smallest_node (bodyRect b)) := by
        simp [bucketList]
      rw [hbl, alLookup_insertPush_self]
      by_cases hrest : bucketList t rest (t.smallest_node (bodyRect b)) = []
      · simp [hrest]
      · simp [hrest]
    · have hbl : bucketList t (b :: rest) n = bucketList t rest n := by
        simp [bucketList, hk]
      rw [hbl, alLookup_insertPush_ne _ _ _ _ hk]

/-- C1 (amended): the registration loop of `check_collisions` files every
category-B body under exactly one node — `smallest_node` of its rect; the
bucket of node `n` holds precisely the `(entity, rect)` pairs of the bodies
whose `smallest_node` is `n`, in iteration order. -/
theorem claim_C1_registration (t : StaticQuadTree) (bs : List Body) (n : Nat) :
    alLookup (buildSpatialIndex t bs) n =
      if bucketList t bs n = [] then none else some (bucketList t bs n) := by
  rw [buildSpatialIndex, alLookup_fold]
  split
  · rfl
  · simp [alLookup]

/-- The depth-1 tree over a 16×16 world, in explicit form. -/
theorem tree16_eq : StaticQuadTree.new ⟨16, 16⟩ 1 = ⟨[
    ⟨⟨⟨-8, -8⟩, ⟨8, 8⟩⟩, some (1, 2, 3, 4)⟩,
    ⟨⟨⟨-8, -8⟩, ⟨0, 0⟩⟩, none⟩,
    ⟨⟨⟨0, -8⟩, ⟨8, 0⟩⟩, none⟩,
    ⟨⟨⟨-8, 0⟩, ⟨0, 8⟩⟩, none⟩,
    ⟨⟨⟨0, 0⟩, ⟨8, 8⟩⟩, none⟩]⟩ := by
  norm_num [StaticQuadTree.new, subdivide, subdivideAux, subStep, nd, List.getD,
    Rect2D.quadrants, Rect2D.center, Rect2D.new, Vec2.zero]

theorem bodyCenter_rect : bodyRect bodyCenter = ⟨⟨-1, -1⟩, ⟨1, 1⟩⟩ := by
  norm_num [bodyRect, bodyCenter, AxisAlignedBoundingBox.new, AxisAlignedBoundingBox.as_rect,
    Rect2D.new]

theorem smallest_node_center :
    (StaticQuadTree.new ⟨16, 16⟩ 1).smallest_node (bodyRect bodyCenter) = 0 := by
  rw [bodyCenter_rect, tree16_eq]
  norm_num [StaticQuadTree.smallest_node, smallestNodeAux, nd, List.getD, Rect2D.intersect]

theorem intersecting_nodes_center :
    (StaticQuadTree.new ⟨16, 16⟩ 1).intersecting_nodes (bodyRect bodyCenter) =
      [0, 1, 2, 3, 4] := by
  rw [bodyCenter_rect, tree16_eq]
  norm_num [StaticQuadTree.intersecting_nodes, intersectAux, nd, List.getD, Rect2D.intersect]

/-- C1 as stated is false: over the 16×16 depth-1 tree, the origin body's
rect overlaps node 1, yet the registration loop leaves node 1's bucket
empty — bodies are filed only under `smallest_node` (here the root). -/
theorem claim_C1_counterexample :
    1 ∈ (StaticQuadTree.new ⟨16, 16⟩ 1).intersecting_nodes (bodyRect bodyCenter) ∧
    alLookup (buildSpatialIndex (StaticQuadTree.new ⟨16, 16⟩ 1) [bodyCenter]) 1 = none := by
  constructor
  · rw [intersecting_nodes_center]; simp
  · simp [buildSpatialIndex, alInsertPush, alLookup, smallest_node_center]

theorem natGetD_append_left (l m : List Nat) (i : Nat) (h : i < l.length) :
    (l ++ m).getD i 0 = l.getD i 0 := by
  simp [List.getD, List.getElem?_append, h]

theorem natGetD_append_right (l m : List Nat) (i : Nat) (h : l.length ≤ i) :
    (l ++ m).getD i 0 = m.getD (i - l.length) 0 := by
  simp [List.getD, List.getElem?_append, h, Nat.not_lt_of_le h]

theorem natGetD_four (l : List Nat) (d k : Nat) (hk : k < 4) :
    (l ++ [d, d, d, d]).getD (l.length + k) 0 = d := by
  rw [natGetD_append_right _ _ _ (by omega), Nat.add_sub_cancel_left]
  interval_cases k <;> simp [List.getD]

theorem subdivideDAux_length_mono (gas : Nat) :
    ∀ ds depth maxDepth, ds.length ≤ (subdivideDAux ds depth maxDepth gas).length := by
  induction gas with
  | zero =>
    intro ds depth maxDepth
    rw [subdivideDAux]
    split <;> simp
  | succ g ih =>
    intro ds depth maxDepth
    rw [subdivideDAux]
    split
    · exact le_trans (by simp)
        (le_trans (ih _ _ _) (le_trans (ih _ _ _) (le_trans (ih _ _ _) (ih _ _ _))))
    · simp

theorem subdivideDAux_length (gas : Nat) :
    ∀ ds depth maxDepth, maxDepth ≤ depth + gas →
      (subdivideDAux ds depth maxDepth gas).length = ds.length + g4 (maxDepth - depth) := by
  induction gas with
  | zero =>
    intro ds depth maxDepth h
    have hd : ¬ depth < maxDepth := by omega
    have h0 : maxDepth - depth = 0 := by omega
    rw [subdivideDAux]
    simp [hd, h0, g4]
  | succ g ih =>
    intro ds depth maxDepth h
    by_cases hd : depth < maxDepth
    · have h1 : maxDepth ≤ (depth + 1) + g := by omega
      have hk : maxDepth - depth = (maxDepth - (depth + 1)) + 1 := by omega
      rw [subdivideDAux]
      simp only [hd, if_true]
      rw [ih _ _ _ h1, ih _ _ _ h1, ih _ _ _ h1, ih _ _ _ h1, hk]
      simp [g4]
      ring
    · have h0 : maxDepth - depth = 0 := by omega
      rw [subdivideDAux]
      simp [hd, h0, g4]

theorem subdivideDAux_getD_preserve (gas : Nat) :
    ∀ ds depth maxDepth i, i < ds.length →
      (subdivideDAux ds depth maxDepth gas).getD i 0 = ds.getD i 0 := by
  induction gas with
  | zero =>
    intro ds depth maxDepth i hi
    rw [subdivideDAux]
    split <;> exact natGetD_append_left _ _ _ hi
  | succ g ih =>
    intro ds depth maxDepth i hi
    rw [subdivideDAux]
    split
    · have l1 := subdivideDAux_length_mono g (ds ++ [depth, depth, depth, depth])
        (depth + 1) maxDepth
      have l2 := subdivideDAux_length_mono g
        (subdivideDAux (ds ++ [depth, depth, depth, depth]) (depth + 1) maxDepth g)
        (depth + 1) maxDepth
      have l3 := subdivideDAux_length_mono g
        (subdivideDAux (subdivideDAux (ds ++ [depth, depth, depth, depth])
          (depth + 1) maxDepth g) (depth + 1) maxDepth g)
        (depth + 1) maxDepth
      have hi4 : i < (ds ++ [depth, depth, depth, depth]).length := by simp; omega
      rw [ih _ _ _ i (by omega), ih _ _ _ i (by omega), ih _ _ _ i (by omega),
        ih _ _ _ i hi4]
      exact natGetD_append_left _ _ _ hi
    · exact natGetD_append_left _ _ _ hi

theorem subdivide_depths_base (nodes : List StaticQuadTreeNode) (ds : List Nat)
    (index depth maxDepth : Nat) (hlen : ds.length = nodes.length)
    (hdep : depth = maxDepth) :
    ∀ i, nodes.length ≤ i → i < (subStep nodes index).length →
      ((nd (subStep nodes index) i).children = none ↔
        (ds ++ [depth, depth, depth, depth]).getD i 0 = maxDepth) := by
  intro i hge hlt
  rw [subStep_length] at hlt
  have hnone : (nd (subStep nodes index) i).children = none := by
    rw [show i = nodes.length + (i - nodes.length) from by omega,
      nd_subStep_new _ _ _ (by omega)]
  have hgd : (ds ++ [depth, depth, depth, depth]).getD i 0 = depth := by
    rw [show i = ds.length + (i - nodes.length) from by omega]
    exact natGetD_four ds depth _ (by omega)
  rw [hnone, hgd]
  simp [hdep]

theorem subdivide_depths (gas : Nat) :
    ∀ nodes ds index depth maxDepth,
      ds.length = nodes.length → index < nodes.length → depth ≤ maxDepth →
      maxDepth ≤ depth + gas →
      ∀ i, nodes.length ≤ i → i < (subdivideAux nodes index depth maxDepth gas).length →
        ((nd (subdivideAux nodes index depth maxDepth gas) i).children = none ↔
          (subdivideDAux ds depth maxDepth gas).getD i 0 = maxDepth) := by
  induction gas with
  | zero =>
    intro nodes ds index depth maxDepth hlen hidx hdep hsuf i hge hlt
    have hd : ¬ depth < maxDepth := by omega
    rw [subdivideAux] at hlt ⊢
    rw [subdivideDAux]
    simp only [hd, if_false] at hlt ⊢
    exact subdivide_depths_base nodes ds index depth maxDepth hlen (by omega) i hge hlt
  | succ g ih =>
    intro nodes ds index depth maxDepth hlen hidx hdep hsuf i hge hlt
    by_cases hd : depth < maxDepth
    · have hsuf1 : maxDepth ≤ (depth + 1) + g := by omega
      have hdep1 : depth + 1 ≤ maxDepth := by omega
      have hA : subdivideAux nodes index depth maxDepth (g + 1) =
          subdivideAux
            (subdivideAux
              (subdivideAux
                (subdivideAux (subStep nodes index) nodes.length (depth + 1) maxDepth g)
                (nodes.length + 1) (depth + 1) maxDepth g)
              (nodes.length + 2) (depth + 1) maxDepth g)
            (nodes.length + 3) (depth + 1) maxDepth g := by
        rw [subdivideAux]
        simp only [hd, if_true]
      have hD : subdivideDAux ds depth maxDepth (g + 1) =
          subdivideDAux
            (subdivideDAux
              (subdivideDAux
                (subdivideDAux (ds ++ [depth, depth, depth, depth]) (depth + 1) maxDepth g)
                (depth + 1) maxDepth g)
              (depth + 1) maxDepth g)
            (depth + 1) maxDepth g := by
        rw [subdivideDAux]
        simp only [hd, if_true]
      rw [hA] at hlt ⊢
      rw [hD]
      set n := nodes.length with hn
      set S := subStep nodes index with hSdef
      set D0 := ds ++ [depth, depth, depth, depth] with hD0def
      set A1 := subdivideAux S n (depth + 1) maxDepth g with hA1def
      set D1 := subdivideDAux D0 (depth + 1) maxDepth g with hD1def
      set A2 := subdivideAux A1 (n + 1) (depth + 1) maxDepth g with hA2def
      set D2 := subdivideDAux D1 (depth + 1) maxDepth g with hD2def
      set A3 := subdivideAux A2 (n + 2) (depth + 1) maxDepth g with hA3def
      set D3 := subdivideDAux D2 (depth + 1) maxDepth g with hD3def
      set A4 := subdivideAux A3 (n + 3) (depth + 1) maxDepth g with hA4def
      set D4 := subdivideDAux D3 (depth + 1) maxDepth g with hD4def
      have hSlen : S.length = n + 4 := subStep_length nodes index
      have hD0len : D0.length = n + 4 := by simp [hD0def, hlen]
      have hA1len : A1.length = S.length + g4 (maxDepth - (depth + 1)) :=
        subdivideAux_length g S n (depth + 1) maxDepth hsuf1
      have hD1len : D1.length = D0.length + g4 (maxDepth - (depth + 1)) :=
        subdivideDAux_length g D0 (depth + 1) maxDepth hsuf1
      have hA2len : A2.length = A1.length + g4 (maxDepth - (depth + 1)) :=
        subdivideAux_length g A1 (n + 1) (depth + 1) maxDepth hsuf1
      have hD2len : D2.length = D1.length + g4 (maxDepth - (depth + 1)) :=
        subdivideDAux_length g D1 (depth + 1) maxDepth hsuf1
      have hA3len : A3.length = A2.length + g4 (maxDepth - (depth + 1)) :=
        subdivideAux_length g A2 (n + 2) (depth + 1) maxDepth hsuf1
      have hD3len : D3.length = D2.length + g4 (maxDepth - (depth + 1)) :=
        subdivideDAux_length g D2 (depth + 1) maxDepth hsuf1
      have hA4len : A4.length = A3.length + g4 (maxDepth - (depth + 1)) :=
        subdivideAux_length g A3 (n + 3) (depth + 1) maxDepth hsuf1
      have hD4len : D4.length = D3.length + g4 (maxDepth - (depth + 1)) :=
        subdivideDAux_length g D3 (depth + 1) maxDepth hsuf1
      have hcase : (n ≤ i ∧ i < n + 4) ∨ (S.length ≤ i ∧ i < A1.length) ∨
          (A1.length ≤ i ∧ i < A2.length) ∨ (A2.length ≤ i ∧ i < A3.length) ∨
          (A3.length ≤ i ∧ i < A4.length) := by omega
      rcases hcase with hc | hc | hc | hc | hc
      · have hj : i = n ∨ i = n + 1 ∨ i = n + 2 ∨ i = n + 3 := by omega
        have hdg : D4.getD i 0 = depth := by
          have d0 : D0.getD i 0 = depth := by
            rw [hD0def, show i = ds.length + (i - n) from by omega]
            exact natGetD_four ds depth _ (by omega)
          rw [hD4def, subdivideDAux_getD_preserve g D3 _ _ i (by omega),
            hD3def, subdivideDAux_getD_preserve g D2 _ _ i (by omega),
            hD2def, subdivideDAux_getD_preserve g D1 _ _ i (by omega),
            hD1def, subdivideDAux_getD_preserve g D0 _ _ i (by omega), d0]
        have hsome : ∃ cs, (nd A4 i).children = some cs := by
          rcases hj with rfl | rfl | rfl | rfl
          · refine ⟨(S.length, S.length + 1, S.length + 2, S.length + 3), ?_⟩
            rw [hA4def, subdivideAux_nd_preserve g A3 _ _ _ _ (by omega) (by omega),
              hA3def, subdivideAux_nd_preserve g A2 _ _ _ _ (by omega) (by omega),
              hA2def, subdivideAux_nd_preserve g A1 _ _ _ _ (by omega) (by omega),
              hA1def, subdivideAux_nd_index g S _ _ _ (by omega)]
          · refine ⟨(A1.length, A1.length + 1, A1.length + 2, A1.length + 3), ?_⟩
            rw [hA4def, subdivideAux_nd_preserve g A3 _ _ _ _ (by omega) (by omega),
              hA3def, subdivideAux_nd_preserve g A2 _ _ _ _ (by omega) (by omega),
              hA2def, subdivideAux_nd_index g A1 _ _ _ (by omega)]
          · refine ⟨(A2.length, A2.length + 1, A2.length + 2, A2.length + 3), ?_⟩
            rw [hA4def, subdivideAux_nd_preserve g A3 _ _ _ _ (by omega) (by omega),
              hA3def, subdivideAux_nd_index g A2 _ _ _ (by omega)]
          · refine ⟨(A3.length, A3.length + 1, A3.length + 2, A3.length + 3), ?_⟩
            rw [hA4def, subdivideAux_nd_index g A3 _ _ _ (by omega)]
        obtain ⟨cs, hcs⟩ := hsome
        rw [hcs, hdg]
        simp
        omega
      · have base := ih S D0 n (depth + 1) maxDepth (by omega) (by omega) hdep1 hsuf1
          i (by omega) (by rw [← hA1def]; omega)
        rw [← hA1def, ← hD1def] at base
        rw [hA4def, subdivideAux_nd_preserve g A3 _ _ _ _ (by omega) (by omega),
          hA3def, subdivideAux_nd_preserve g A2 _ _ _ _ (by omega) (by omega),
          hA2def, subdivideAux_nd_preserve g A1 _ _ _ _ (by omega) (by omega),
          hD4def, subdivideDAux_getD_preserve g D3 _ _ i (by omega),
          hD3def, subdivideDAux_getD_preserve g D2 _ _ i (by omega),
          hD2def, subdivideDAux_getD_preserve g D1 _ _ i (by omega)]
        exact base
      · have base := ih A1 D1 (n + 1) (depth + 1) maxDepth (by omega) (by omega)
          hdep1 hsuf1 i (by omega) (by rw [← hA2def]; omega)
        rw [← hA2def, ← hD2def] at base
        rw [hA4def, subdivideAux_nd_preserve g A3 _ _ _ _ (by omega) (by omega),
          hA3def, subdivideAux_nd_preserve g A2 _ _ _ _ (by omega) (by omega),
          hD4def, subdivideDAux_getD_preserve g D3 _ _ i (by omega),
          hD3def, subdivideDAux_getD_preserve g D2 _ _ i (by omega)]
        exact base
      · have base := ih A2 D2 (n + 2) (depth + 1) maxDepth (by omega) (by omega)
          hdep1 hsuf1 i (by omega) (by rw [← hA3def]; omega)
        rw [← hA3def, ← hD3def] at base
        rw [hA4def, subdivideAux_nd_preserve g A3 _ _ _ _ (by omega) (by omega),
          hD4def, subdivideDAux_getD_preserve g D3 _ _ i (by omega)]
        exact base
      · have base := ih A3 D3 (n + 3) (depth + 1) maxDepth (by omega) (by omega)
          hdep1 hsuf1 i (by omega) (by rw [← hA4def]; omega)
        rw [← hA4def, ← hD4def] at base
        exact base
    · rw [subdivideAux] at hlt ⊢
      rw [subdivideDAux]
      simp only [hd, if_false] at hlt ⊢
      exact subdivide_depths_base nodes ds index depth maxDepth hlen (by omega) i hge hlt

/-- C3 (amended): for `max_depth ≥ 1` the node vector of
`StaticQuadTree::new(size, max_depth)` has exactly `(4^(max_depth+1)-1)/3`
entries, node 0 carries the root bounds, and exactly the nodes at the final
depth level (depth `max_depth`, as recorded position-by-position by
`nodeDepths`) have `children = none`.  (At `max_depth = 0` the code still
subdivides the root once and yields 5 nodes, so the count formula fails
there.) -/
theorem claim_C3_node_count (screenSize : Vec2) (maxDepth : Nat) (h : 1 ≤ maxDepth) :
    (StaticQuadTree.new screenSize maxDepth).nodes.length = (4 ^ (maxDepth + 1) - 1) / 3 ∧
    (nd (StaticQuadTree.new screenSize maxDepth).nodes 0).bounds = rootRect screenSize ∧
    (∀ i, i < (StaticQuadTree.new screenSize maxDepth).nodes.length →
      ((nd (StaticQuadTree.new screenSize maxDepth).nodes i).children = none ↔
        (nodeDepths maxDepth).getD i 0 = maxDepth)) := by
  refine ⟨?_, new_root_bounds screenSize maxDepth, ?_⟩
  · have hlen := new_length screenSize maxDepth
    have hg := g4_closed (maxDepth - 1)
    have he : maxDepth - 1 + 2 = maxDepth + 1 := by omega
    rw [he] at hg
    have hp : 4 ≤ 4 ^ (maxDepth + 1) := by
      calc (4 : Nat) = 4 ^ 1 := by norm_num
      _ ≤ 4 ^ (maxDepth + 1) := Nat.pow_le_pow_right (by norm_num) (by omega)
    have h3 : 4 ^ (maxDepth + 1) - 1 =
        (StaticQuadTree.new screenSize maxDepth).nodes.length * 3 := by omega
    exact (Nat.div_eq_of_eq_mul_left (by norm_num) h3).symm
  · intro i hi
    rcases Nat.eq_zero_or_pos i with rfl | hipos
    · rw [new_root_children screenSize maxDepth]
      have hd0 : (nodeDepths maxDepth).getD 0 0 = 0 := by
        rw [nodeDepths, subdivideDAux_getD_preserve _ _ _ _ 0 (by simp)]
        simp [List.getD]
      rw [hd0]
      simp
      omega
    · have hmain := subdivide_depths (maxDepth - 1)
        [⟨Rect2D.new (Vec2.zero - screenSize / (2 : ℚ)) (screenSize / (2 : ℚ)), none⟩]
        [0] 0 1 maxDepth (by simp) (by simp) h (by omega) i (by simpa using hipos)
      rw [StaticQuadTree.new, subdivide] at hi ⊢
      simp only at hi ⊢
      rw [nodeDepths]
      exact hmain hi

theorem claim_C3_witness :
    (StaticQuadTree.new ⟨16, 16⟩ 1).nodes.length = (4 ^ (1 + 1) - 1) / 3 :=
  (claim_C3_node_count ⟨16, 16⟩ 1 (le_refl 1)).1

/-- C3 as stated is false at `max_depth = 0`: `new` always subdivides the
root once, so the tree has 5 nodes while `(4^(0+1)-1)/3 = 1`. -/
theorem claim_C3_counterexample :
    (StaticQuadTree.new ⟨16, 16⟩ 0).nodes.length = 5 ∧ (4 ^ (0 + 1) - 1) / 3 = 1 := by
  constructor
  · rw [new_length]; norm_num [g4]
  · norm_num

theorem intersectAux_reach (ns : List StaticQuadTreeNode) (target : Rect2D)
    (hwf : ChildrenWF ns) :
    ∀ fuel idx acc j, idx < ns.length → ns.length - idx ≤ fuel →
      ReachChain ns target idx j → j ∈ intersectAux ns target fuel idx acc := by
  intro fuel
  induction fuel with
  | zero => intro idx acc j hidx hf hch; omega
  | succ f ih =>
    intro idx acc j hidx hf hch
    rw [intersectAux]
    cases hch with
    | here _ hb =>
      simp only [hb, if_true]
      rcases hc : (nd ns idx).children with _ | cs
      · simp only [hc]
        simp
      · simp only [hc]
        have hwfc := hwf idx cs hc
        refine intersectAux_acc_mono ns target f _ _ idx
          (intersectAux_acc_mono ns target f _ _ idx
            (intersectAux_acc_mono ns target f _ _ idx
              (intersectAux_acc_mono ns target f _ _ idx (by simp))))
    | step _ c _ cs hc hmem hb htail =>
      simp only [hb, if_true, hc]
      have hwfc := hwf idx cs hc
      rcases hmem with rfl | rfl | rfl | rfl
      · exact intersectAux_acc_mono ns target f _ _ j
          (intersectAux_acc_mono ns target f _ _ j
            (intersectAux_acc_mono ns target f _ _ j
              (ih _ _ j (by omega) (by omega) htail)))
      · exact intersectAux_acc_mono ns target f _ _ j
          (intersectAux_acc_mono ns target f _ _ j
            (ih _ _ j (by omega) (by omega) htail))
      · exact intersectAux_acc_mono ns target f _ _ j
          (ih _ _ j (by omega) (by omega) htail)
      · exact ih _ _ j (by omega) (by omega) htail

theorem smallestNodePathAux_chain (ns : List StaticQuadTreeNode) (target : Rect2D) :
    ∀ fuel cur j, (nd ns cur).bounds.intersect target = true →
      j ∈ smallestNodePathAux ns target fuel cur → ReachChain ns target cur j := by
  intro fuel
  induction fuel with
  | zero =>
    intro cur j hint hj
    rw [smallestNodePathAux] at hj
    simp at hj
    subst hj
    exact ReachChain.here _ hint
  | succ f ih =>
    intro cur j hint hj
    rw [smallestNodePathAux] at hj
    rcases hc : (nd ns cur).children with _ | cs
    · simp only [hc] at hj
      simp at hj
      subst hj
      exact ReachChain.here _ hint
    · simp only [hc] at hj
      by_cases hm : (([cs.1, cs.2.1, cs.2.2.1, cs.2.2.2].filter
          fun child => (nd ns child).bounds.intersect target)).length = 1
      · simp only [hm, if_true] at hj
        rcases List.mem_cons.mp hj with rfl | hj'
        · exact ReachChain.here j hint
        · obtain ⟨hmem, hp⟩ := mem_of_filter_getD [cs.1, cs.2.1, cs.2.2.1, cs.2.2.2]
            (fun child => (nd ns child).bounds.intersect target) (by omega)
          refine ReachChain.step cur _ j cs hc ?_ hint (ih _ j hp hj')
          simpa using hmem
      · simp only [hm, if_false] at hj
        simp at hj
        subst hj
        exact ReachChain.here _ hint

theorem mem_path_self (ns : List StaticQuadTreeNode) (target : Rect2D) :
    ∀ fuel cur, cur ∈ smallestNodePathAux ns target fuel cur := by
  intro fuel cur
  cases fuel with
  | zero => rw [smallestNodePathAux]; simp
  | succ f =>
    rw [smallestNodePathAux]
    rcases hc : (nd ns cur).children with _ | cs <;> simp only [hc]
    · simp
    · split <;> simp

theorem smallest_mem_path (ns : List StaticQuadTreeNode) (target : Rect2D) :
    ∀ fuel cur, smallestNodeAux ns target fuel cur ∈ smallestNodePathAux ns target fuel cur := by
  intro fuel
  induction fuel with
  | zero => intro cur; rw [smallestNodeAux, smallestNodePathAux]; simp
  | succ f ih =>
    intro cur
    rw [smallestNodeAux, smallestNodePathAux]
    rcases hc : (nd ns cur).children with _ | cs <;> simp only [hc]
    · simp
    · split
      · exact List.mem_cons_of_mem _ (ih _)
      · simp

/-- C4 (amended): whenever the target rectangle overlaps the root's bounds,
the set returned by `intersecting_nodes` contains the root index 0 and every
node visited on the descent path of `smallest_node` for the same target,
including the returned index.  (For a target wholly outside the world the
walk prunes at the root and returns the empty set, which contains neither.) -/
theorem claim_C4_intersecting_nodes_cover (screenSize : Vec2) (maxDepth : Nat)
    (target : Rect2D)
    (hroot : (nd (StaticQuadTree.new screenSize maxDepth).nodes 0).bounds.intersect
      target = true) :
    0 ∈ (StaticQuadTree.new screenSize maxDepth).intersecting_nodes target ∧
    (∀ j ∈ (StaticQuadTree.new screenSize maxDepth).smallest_node_path target,
      j ∈ (StaticQuadTree.new screenSize maxDepth).intersecting_nodes target) ∧
    (StaticQuadTree.new screenSize maxDepth).smallest_node target ∈
      (StaticQuadTree.new screenSize maxDepth).intersecting_nodes target := by
  have hwf := new_children_wf screenSize maxDepth
  have hlen : 0 < (StaticQuadTree.new screenSize maxDepth).nodes.length := by
    rw [new_length]; omega
  have hpath : ∀ j ∈ (StaticQuadTree.new screenSize maxDepth).smallest_node_path target,
      j ∈ (StaticQuadTree.new screenSize maxDepth).intersecting_nodes target := by
    intro j hj
    have hchain := smallestNodePathAux_chain _ target _ 0 j hroot hj
    exact intersectAux_reach _ target hwf _ 0 [] j hlen (by omega) hchain
  exact ⟨hpath 0 (mem_path_self _ _ _ 0), hpath,
    hpath _ (smallest_mem_path _ _ _ 0)⟩

theorem claim_C4_witness :
    0 ∈ (StaticQuadTree.new ⟨16, 16⟩ 1).intersecting_nodes ⟨⟨-1, -1⟩, ⟨1, 1⟩⟩ :=
  (claim_C4_intersecting_nodes_cover ⟨16, 16⟩ 1 ⟨⟨-1, -1⟩, ⟨1, 1⟩⟩
    (by rw [tree16_eq]; norm_num [nd, List.getD, Rect2D.intersect])).1

/-- C4 as stated is false for targets outside the world: the walk prunes at
the root, returns the empty set, and 0 is not a member. -/
theorem claim_C4_counterexample :
    ¬ (0 ∈ (StaticQuadTree.new ⟨16, 16⟩ 1).intersecting_nodes
      ⟨⟨100, 100⟩, ⟨101, 101⟩⟩) := by
  rw [tree16_eq]
  norm_num [StaticQuadTree.intersecting_nodes, intersectAux, nd, List.getD, Rect2D.intersect]

theorem insideOf_refl (r : Rect2D) : r.insideOf r :=
  ⟨le_refl _, le_refl _, le_refl _, le_refl _⟩

theorem insideOf_trans {a b c : Rect2D} (h1 : a.insideOf b) (h2 : b.insideOf c) :
    a.insideOf c := by
  obtain ⟨x1, x2, x3, x4⟩ := h1
  obtain ⟨y1, y2, y3, y4⟩ := h2
  exact ⟨le_trans y1 x1, le_trans x2 y2, le_trans y3 x3, le_trans x4 y4⟩

theorem center_x_between (r : Rect2D) (h : r.valid) :
    r.min.x ≤ r.center.x ∧ r.center.x ≤ r.max.x := by
  obtain ⟨hx, hy⟩ := h
  constructor <;> simp [Rect2D.center] <;> linarith

theorem center_y_between (r : Rect2D) (h : r.valid) :
    r.min.y ≤ r.center.y ∧ r.center.y ≤ r.max.y := by
  obtain ⟨hx, hy⟩ := h
  constructor <;> simp [Rect2D.center] <;> linarith

theorem quadrants_valid (r : Rect2D) (h : r.valid) :
    ∀ q ∈ r.quadrants, q.valid := by
  obtain ⟨cx1, cx2⟩ := center_x_between r h
  obtain ⟨cy1, cy2⟩ := center_y_between r h
  intro q hq
  simp [Rect2D.quadrants, Rect2D.new] at hq
  rcases hq with rfl | rfl | rfl | rfl
  · exact ⟨cx1, cy1⟩
  · exact ⟨cx2, cy1⟩
  · exact ⟨cx1, cy2⟩
  · exact ⟨cx2, cy2⟩

theorem quadrants_insideOf (r : Rect2D) (h : r.valid) :
    ∀ q ∈ r.quadrants, q.insideOf r := by
  obtain ⟨cx1, cx2⟩ := center_x_between r h
  obtain ⟨cy1, cy2⟩ := center_y_between r h
  intro q hq
  simp [Rect2D.quadrants, Rect2D.new] at hq
  rcases hq with rfl | rfl | rfl | rfl
  · exact ⟨le_refl _, cx2, le_refl _, cy2⟩
  · exact ⟨cx1, le_refl _, le_refl _, cy2⟩
  · exact ⟨le_refl _, cx2, cy1, le_refl _⟩
  · exact ⟨cx1, le_refl _, cy1, le_refl _⟩

theorem children_some_lt (t : List StaticQuadTreeNode) (i : Nat)
    (cs : Nat × Nat × Nat × Nat) (hcs : (nd t i).children = some cs) : i < t.length := by
  by_contra h
  rw [nd_of_le _ _ (by omega)] at hcs
  simp [default] at hcs

theorem nd_subStep_bounds (nodes : List StaticQuadTreeNode) (index j : Nat)
    (hj : j < nodes.length) :
    (nd (subStep nodes index) j).bounds = (nd nodes j).bounds := by
  by_cases h : j = index
  · subst h
    rw [nd_subStep_index _ _ hj]
  · rw [nd_subStep_old _ _ _ hj h]

theorem struct_wf_subStep (nodes : List StaticQuadTreeNode) (index : Nat)
    (hidx : index < nodes.length) (hwf : ChildrenWF nodes) (hst : StructWF nodes) :
    StructWF (subStep nodes index) := by
  intro i cs hcs
  by_cases hi : i = index
  · subst hi
    rw [nd_subStep_index _ _ hidx] at hcs
    simp only [Option.some.injEq] at hcs
    subst hcs
    have e0 : nd (subStep nodes i) nodes.length =
        ⟨(nd nodes i).bounds.quadrants.getD 0 ⟨⟨0, 0⟩, ⟨0, 0⟩⟩, none⟩ := by
      simpa using nd_subStep_new nodes i 0 (by omega)
    have e1 := nd_subStep_new nodes i 1 (by omega)
    have e2 := nd_subStep_new nodes i 2 (by omega)
    have e3 := nd_subStep_new nodes i 3 (by omega)
    rw [nd_subStep_index _ _ hidx]
    simp only [e0, e1, e2, e3]
    simp [Rect2D.quadrants, List.getD]
  · have hlt : i < nodes.length := by
      by_contra h
      by_cases h4 : i < nodes.length + 4
      · rw [show i = nodes.length + (i - nodes.length) from by omega,
          nd_subStep_new nodes index _ (by omega)] at hcs
        simp at hcs
      · rw [nd_of_le _ _ (by rw [subStep_length]; omega)] at hcs
        simp [default] at hcs
    rw [nd_subStep_old _ _ _ hlt hi] at hcs
    have hold := hst i cs hcs
    have hwfc := hwf i cs hcs
    rw [nd_subStep_bounds _ _ _ hlt, nd_subStep_bounds _ _ _ (by omega),
      nd_subStep_bounds _ _ _ (by omega), nd_subStep_bounds _ _ _ (by omega),
      nd_subStep_bounds _ _ _ (by omega)]
    exact hold

theorem struct_wf_subdivideAux (gas : Nat) :
    ∀ nodes index depth maxDepth, index < nodes.length → ChildrenWF nodes →
      StructWF nodes → StructWF (subdivideAux nodes index depth maxDepth gas) := by
  induction gas with
  | zero =>
    intro nodes index depth maxDepth hidx hwf hst
    rw [subdivideAux]
    split <;> exact struct_wf_subStep nodes index hidx hwf hst
  | succ g ih =>
    intro nodes index depth maxDepth hidx hwf hst
    rw [subdivideAux]
    split
    · have hs := subStep_length nodes index
      have l1 := subdivideAux_length_mono g (subStep nodes index) nodes.length
        (depth + 1) maxDepth
      have l2 := subdivideAux_length_mono g
        (subdivideAux (subStep nodes index) nodes.length (depth + 1) maxDepth g)
        (nodes.length + 1) (depth + 1) maxDepth
      have l3 := subdivideAux_length_mono g
        (subdivideAux (subdivideAux (subStep nodes index) nodes.length (depth + 1) maxDepth g)
          (nodes.length + 1) (depth + 1) maxDepth g)
        (nodes.length + 2) (depth + 1) maxDepth
      have w0 := children_wf_subStep nodes index hidx hwf
      have s0 := struct_wf_subStep nodes index hidx hwf hst
      have w1 := children_wf_subdivideAux g _ nodes.length (depth + 1) maxDepth
        (by omega) w0
      have s1 := ih _ nodes.length (depth + 1) maxDepth (by omega) w0 s0
      have w2 := children_wf_subdivideAux g _ (nodes.length + 1) (depth + 1) maxDepth
        (by omega) w1
      have s2 := ih _ (nodes.length + 1) (depth + 1) maxDepth (by omega) w1 s1
      have w3 := children_wf_subdivideAux g _ (nodes.length + 2) (depth + 1) maxDepth
        (by omega) w2
      have s3 := ih _ (nodes.length + 2) (depth + 1) maxDepth (by omega) w2 s2
      exact ih _ (nodes.length + 3) (depth + 1) maxDepth (by omega) w3 s3
    · exact struct_wf_subStep nodes index hidx hwf hst

theorem valid_bounds_subStep (nodes : List StaticQuadTreeNode) (index : Nat)
    (_hidx : index < nodes.length) (hv : ValidBounds nodes) :
    ValidBounds (subStep nodes index) := by
  intro i
  by_cases hlt : i < nodes.length
  · rw [nd_subStep_bounds _ _ _ hlt]
    exact hv i
  · by_cases h4 : i < nodes.length + 4
    · rw [show i = nodes.length + (i - nodes.length) from by omega,
        nd_subStep_new nodes index _ (by omega)]
      have hmem : (nd nodes index).bounds.quadrants.getD (i - nodes.length)
          ⟨⟨0, 0⟩, ⟨0, 0⟩⟩ ∈ (nd nodes index).bounds.quadrants := by
        have : i - nodes.length < (nd nodes index).bounds.quadrants.length := by
          simp [Rect2D.quadrants]; omega
        rw [List.getD_eq_getElem _ _ this]
        exact List.getElem_mem this
      exact quadrants_valid _ (hv index) _ hmem
    · rw [nd_of_le _ _ (by rw [subStep_length]; omega)]
      exact ⟨le_refl _, le_refl _⟩

theorem valid_bounds_subdivideAux (gas : Nat) :
    ∀ nodes index depth maxDepth, index < nodes.length → ValidBounds nodes →
      ValidBounds (subdivideAux nodes index depth maxDepth gas) := by
  induction gas with
  | zero =>
    intro nodes index depth maxDepth hidx hv
    rw [subdivideAux]
    split <;> exact valid_bounds_subStep nodes index hidx hv
  | succ g ih =>
    intro nodes index depth maxDepth hidx hv
    rw [subdivideAux]
    split
    · have hs := subStep_length nodes index
      have l1 := subdivideAux_length_mono g (subStep nodes index) nodes.length
        (depth + 1) maxDepth
      have l2 := subdivideAux_length_mono g
        (subdivideAux (subStep nodes index) nodes.length (depth + 1) maxDepth g)
        (nodes.length + 1) (depth + 1) maxDepth
      have l3 := subdivideAux_length_mono g
        (subdivideAux (subdivideAux (subStep nodes index) nodes.length (depth + 1) maxDepth g)
          (nodes.length + 1) (depth + 1) maxDepth g)
        (nodes.length + 2) (depth + 1) maxDepth
      exact ih _ (nodes.length + 3) (depth + 1) maxDepth (by omega)
        (ih _ (nodes.length + 2) (depth + 1) maxDepth (by omega)
          (ih _ (nodes.length + 1) (depth + 1) maxDepth (by omega)
            (ih _ nodes.length (depth + 1) maxDepth (by omega)
              (valid_bounds_subStep nodes index hidx hv))))
    · exact valid_bounds_subStep nodes index hidx hv

theorem new_struct_wf (screenSize : Vec2) (maxDepth : Nat) :
    StructWF (StaticQuadTree.new screenSize maxDepth).nodes := by
  refine struct_wf_subdivideAux _ _ _ _ _ (by simp) (children_wf_single _ rfl) ?_
  intro i cs hcs
  match i with
  | 0 => simp [nd, List.getD] at hcs
  | j + 1 =>
    rw [nd_of_le _ _ (by simp)] at hcs
    simp [default] at hcs

theorem new_valid_bounds (screenSize : Vec2) (maxDepth : Nat)
    (hx : 0 ≤ screenSize.x) (hy : 0 ≤ screenSize.y) :
    ValidBounds (StaticQuadTree.new screenSize maxDepth).nodes := by
  refine valid_bounds_subdivideAux _ _ _ _ _ (by simp) ?_
  intro i
  match i with
  | 0 =>
    refine ⟨?_, ?_⟩ <;> simp [nd, List.getD, Rect2D.new, Vec2.zero] <;> linarith
  | j + 1 =>
    rw [nd_of_le _ _ (by simp)]
    exact ⟨le_refl _, le_refl _⟩

theorem children_some_subStep (nodes : List StaticQuadTreeNode) (index i : Nat)
    (cs : Nat × Nat × Nat × Nat) (hne : i ≠ index)
    (hcs : (nd nodes i).children = some cs) :
    (nd (subStep nodes index) i).children = some cs := by
  rw [nd_subStep_old _ _ _ (children_some_lt nodes i cs hcs) hne, hcs]

theorem children_some_subdivideAux (gas : Nat) :
    ∀ nodes index depth maxDepth i cs, i ≠ index →
      (nd nodes i).children = some cs →
      (nd (subdivideAux nodes index depth maxDepth gas) i).children = some cs := by
  induction gas with
  | zero =>
    intro nodes index depth maxDepth i cs hne hcs
    rw [subdivideAux]
    split <;> exact children_some_subStep nodes index i cs hne hcs
  | succ g ih =>
    intro nodes index depth maxDepth i cs hne hcs
    rw [subdivideAux]
    split
    · have hi : i < nodes.length := children_some_lt nodes i cs hcs
      exact ih _ _ _ _ i cs (by omega)
        (ih _ _ _ _ i cs (by omega)
          (ih _ _ _ _ i cs (by omega)
            (ih _ _ _ _ i cs (by omega)
              (children_some_subStep nodes index i cs hne hcs))))
    · exact children_some_subStep nodes index i cs hne hcs

theorem desc_subdivideAux (gas : Nat) (nodes : List StaticQuadTreeNode)
    (index depth maxDepth : Nat) (hnone : (nd nodes index).children = none)
    {i j : Nat} (hd : Desc nodes i j) :
    Desc (subdivideAux nodes index depth maxDepth gas) i j := by
  induction hd with
  | refl i => exact Desc.refl i
  | step i c j cs hc hmem htail ih =>
    have hne : i ≠ index := fun he => by rw [he, hnone] at hc; cases hc
    exact Desc.step i c j cs (children_some_subdivideAux gas _ _ _ _ i cs hne hc) hmem ih

theorem subdivideAux_desc (gas : Nat) :
    ∀ nodes index depth maxDepth, index < nodes.length →
      (nd nodes index).children = none →
      ∀ i, nodes.length ≤ i → i < (subdivideAux nodes index depth maxDepth gas).length →
        Desc (subdivideAux nodes index depth maxDepth gas) index i := by
  induction gas with
  | zero =>
    intro nodes index depth maxDepth hidx hnone i hge hlt
    have hbase : ∀ k, nodes.length ≤ k → k < nodes.length + 4 →
        Desc (subStep nodes index) index k := by
      intro k h1 h2
      refine Desc.step index k k
        (nodes.length, nodes.length + 1, nodes.length + 2, nodes.length + 3)
        (by rw [nd_subStep_index _ _ hidx]) (by simp only; omega) (Desc.refl k)
    rw [subdivideAux] at hlt ⊢
    split at hlt
    all_goals {
      split
      all_goals {
        rw [subStep_length] at hlt
        exact hbase i hge hlt
      }
    }
  | succ g ih =>
    intro nodes index depth maxDepth hidx hnone i hge hlt
    by_cases hd : depth < maxDepth
    · have hA : subdivideAux nodes index depth maxDepth (g + 1) =
          subdivideAux
            (subdivideAux
              (subdivideAux
                (subdivideAux (subStep nodes index) nodes.length (depth + 1) maxDepth g)
                (nodes.length + 1) (depth + 1) maxDepth g)
              (nodes.length + 2) (depth + 1) maxDepth g)
            (nodes.length + 3) (depth + 1) maxDepth g := by
        rw [subdivideAux]
        simp only [hd, if_true]
      rw [hA] at hlt ⊢
      have hs := subStep_length nodes index
      have l1 := subdivideAux_length_mono g (subStep nodes index) nodes.length
        (depth + 1) maxDepth
      have l2 := subdivideAux_length_mono g
        (subdivideAux (subStep nodes index) nodes.length (depth + 1) maxDepth g)
        (nodes.length + 1) (depth + 1) maxDepth
      have l3 := subdivideAux_length_mono g
        (subdivideAux (subdivideAux (subStep nodes index) nodes.length
          (depth + 1) maxDepth g) (nodes.length + 1) (depth + 1) maxDepth g)
        (nodes.length + 2) (depth + 1) maxDepth
      have l4 := subdivideAux_length_mono g
        (subdivideAux (subdivideAux (subdivideAux (subStep nodes index) nodes.length
          (depth + 1) maxDepth g) (nodes.length + 1) (depth + 1) maxDepth g)
          (nodes.length + 2) (depth + 1) maxDepth g)
        (nodes.length + 3) (depth + 1) maxDepth
      have hnS0 : (nd (subStep nodes index) nodes.length).children = none := by
        have h := nd_subStep_new nodes index 0 (by omega)
        simp only [Nat.add_zero] at h
        rw [h]
      have hnS1 : (nd (subStep nodes index) (nodes.length + 1)).children = none := by
        rw [nd_subStep_new nodes index 1 (by omega)]
      have hnS2 : (nd (subStep nodes index) (nodes.length + 2)).children = none := by
        rw [nd_subStep_new nodes index 2 (by omega)]
      have hnS3 : (nd (subStep nodes index) (nodes.length + 3)).children = none := by
        rw [nd_subStep_new nodes index 3 (by omega)]
      have hnA1 : (nd (subdivideAux (subStep nodes index) nodes.length
          (depth + 1) maxDepth g) (nodes.length + 1)).children = none := by
        rw [subdivideAux_nd_preserve g _ _ _ _ _ (by omega) (by omega)]
        exact hnS1
      have hnA2 : (nd (subdivideAux (subdivideAux (subStep nodes index) nodes.length
          (depth + 1) maxDepth g) (nodes.length + 1) (depth + 1) maxDepth g)
          (nodes.length + 2)).children = none := by
        rw [subdivideAux_nd_preserve g _ _ _ _ _ (by omega) (by omega),
          subdivideAux_nd_preserve g _ _ _ _ _ (by omega) (by omega)]
        exact hnS2
      have hnA3 : (nd (subdivideAux (subdivideAux (subdivideAux (subStep nodes index)
          nodes.length (depth + 1) maxDepth g) (nodes.length + 1) (depth + 1) maxDepth g)
          (nodes.length + 2) (depth + 1) maxDepth g) (nodes.length + 3)).children = none := by
        rw [subdivideAux_nd_preserve g _ _ _ _ _ (by omega) (by omega),
          subdivideAux_nd_preserve g _ _ _ _ _ (by omega) (by omega),
          subdivideAux_nd_preserve g _ _ _ _ _ (by omega) (by omega)]
        exact hnS3
      have hsome : (nd (subdivideAux (subdivideAux (subdivideAux (subdivideAux
          (subStep nodes index) nodes.length (depth + 1) maxDepth g)
          (nodes.length + 1) (depth + 1) maxDepth g) (nodes.length + 2)
          (depth + 1) maxDepth g) (nodes.length + 3) (depth + 1) maxDepth g)
          index).children =
          some (nodes.length, nodes.length + 1, nodes.length + 2, nodes.length + 3) := by
        rw [← hA, subdivideAux_nd_index (g + 1) nodes index depth maxDepth hidx]
      have hcase : (nodes.length ≤ i ∧ i < nodes.length + 4) ∨
          ((subStep nodes index).length ≤ i ∧
            i < (subdivideAux (subStep nodes index) nodes.length
              (depth + 1) maxDepth g).length) ∨
          ((subdivideAux (subStep nodes index) nodes.length
              (depth + 1) maxDepth g).length ≤ i ∧
            i < (subdivideAux (subdivideAux (subStep nodes index) nodes.length
              (depth + 1) maxDepth g) (nodes.length + 1) (depth + 1) maxDepth g).length) ∨
          ((subdivideAux (subdivideAux (subStep nodes index) nodes.length
              (depth + 1) maxDepth g) (nodes.length + 1) (depth + 1) maxDepth g).length ≤ i ∧
            i < (subdivideAux (subdivideAux (subdivideAux (subStep nodes index) nodes.length
              (depth + 1) maxDepth g) (nodes.length + 1) (depth + 1) maxDepth g)
              (nodes.length + 2) (depth + 1) maxDepth g).length) ∨
          ((subdivideAux (subdivideAux (subdivideAux (subStep nodes index) nodes.length
              (depth + 1) maxDepth g) (nodes.length + 1) (depth + 1) maxDepth g)
              (nodes.length + 2) (depth + 1) maxDepth g).length ≤ i) := by omega
      rcases hcase with hc | hc | hc | hc | hc
      · exact Desc.step index i i
          (nodes.length, nodes.length + 1, nodes.length + 2, nodes.length + 3) hsome
          (by simp only; omega) (Desc.refl i)
      · have d1 := ih (subStep nodes index) nodes.length (depth + 1) maxDepth
          (by omega) hnS0 i (by omega) (by omega)
        have d4 := desc_subdivideAux g _ (nodes.length + 3) (depth + 1) maxDepth hnA3
          (desc_subdivideAux g _ (nodes.length + 2) (depth + 1) maxDepth hnA2
            (desc_subdivideAux g _ (nodes.length + 1) (depth + 1) maxDepth hnA1 d1))
        exact Desc.step index nodes.length i
          (nodes.length, nodes.length + 1, nodes.length + 2, nodes.length + 3) hsome
          (Or.inl rfl) d4
      · have d2 := ih (subdivideAux (subStep nodes index) nodes.length
          (depth + 1) maxDepth g) (nodes.length + 1) (depth + 1) maxDepth
          (by omega) hnA1 i (by omega) (by omega)
        have d4 := desc_subdivideAux g _ (nodes.length + 3) (depth + 1) maxDepth hnA3
          (desc_subdivideAux g _ (nodes.length + 2) (depth + 1) maxDepth hnA2 d2)
        exact Desc.step index (nodes.length + 1) i
          (nodes.length, nodes.length + 1, nodes.length + 2, nodes.length + 3) hsome
          (Or.inr (Or.inl rfl)) d4
      · have d3 := ih (subdivideAux (subdivideAux (subStep nodes index) nodes.length
          (depth + 1) maxDepth g) (nodes.length + 1) (depth + 1) maxDepth g)
          (nodes.length + 2) (depth + 1) maxDepth (by omega) hnA2 i (by omega) (by omega)
        have d4 := desc_subdivideAux g _ (nodes.length + 3) (depth + 1) maxDepth hnA3 d3
        exact Desc.step index (nodes.length + 2) i
          (nodes.length, nodes.length + 1, nodes.length + 2, nodes.length + 3) hsome
          (Or.inr (Or.inr (Or.inl rfl))) d4
      · have d4 := ih (subdivideAux (subdivideAux (subdivideAux (subStep nodes index)
          nodes.length (depth + 1) maxDepth g) (nodes.length + 1) (depth + 1) maxDepth g)
          (nodes.length + 2) (depth + 1) maxDepth g)
          (nodes.length + 3) (depth + 1) maxDepth (by omega) hnA3 i (by omega) hlt
        exact Desc.step index (nodes.length + 3) i
          (nodes.length, nodes.length + 1, nodes.length + 2, nodes.length + 3) hsome
          (Or.inr (Or.inr (Or.inr rfl))) d4
    · have hbase : ∀ k, nodes.length ≤ k → k < nodes.length + 4 →
          Desc (subStep nodes index) index k := by
        intro k h1 h2
        refine Desc.step index k k
          (nodes.length, nodes.length + 1, nodes.length + 2, nodes.length + 3)
          (by rw [nd_subStep_index _ _ hidx]) (by simp only; omega) (Desc.refl k)
      rw [subdivideAux] at hlt ⊢
      simp only [hd, if_false] at hlt ⊢
      rw [subStep_length] at hlt
      exact hbase i hge hlt

theorem new_desc (screenSize : Vec2) (maxDepth : Nat) :
    ∀ i, i < (StaticQuadTree.new screenSize maxDepth).nodes.length →
      Desc (StaticQuadTree.new screenSize maxDepth).nodes 0 i := by
  intro i hi
  rcases Nat.eq_zero_or_pos i with rfl | hipos
  · exact Desc.refl 0
  · rw [StaticQuadTree.new, subdivide] at hi ⊢
    simp only at hi ⊢
    exact subdivideAux_desc (maxDepth - 1) _ 0 1 maxDepth (by simp) (by rfl) i
      (by simpa using hipos) hi

theorem desc_insideOf (t : List StaticQuadTreeNode) (hst : StructWF t)
    (hv : ValidBounds t) {i j : Nat} (hd : Desc t i j) :
    (nd t j).bounds.insideOf (nd t i).bounds := by
  induction hd with
  | refl i => exact insideOf_refl _
  | step i c j cs hc hmem htail ih =>
    obtain ⟨hq1, hq2, hq3, hq4⟩ := hst i cs hc
    have hcq : (nd t c).bounds ∈ (nd t i).bounds.quadrants := by
      rcases hmem with rfl | rfl | rfl | rfl
      · rw [hq1]; simp [Rect2D.quadrants]
      · rw [hq2]; simp [Rect2D.quadrants]
      · rw [hq3]; simp [Rect2D.quadrants]
      · rw [hq4]; simp [Rect2D.quadrants]
    exact insideOf_trans ih (quadrants_insideOf _ (hv i) _ hcq)

theorem cover_tl (cx cy tminx tminy tmaxx tmaxy pminx pminy pmaxx pmaxy : ℚ)
    (hv1 : tminx ≤ tmaxx) (hv2 : tminy ≤ tmaxy)
    (hin1 : pminx ≤ tminx) (hin2 : tmaxx ≤ pmaxx) (hin3 : pminy ≤ tminy)
    (hin4 : tmaxy ≤ pmaxy)
    (hTL : pminx ≤ tmaxx ∧ cx ≥ tminx ∧ pminy ≤ tmaxy ∧ cy ≥ tminy)
    (hTR : ¬ (cx ≤ tmaxx ∧ pmaxx ≥ tminx ∧ pminy ≤ tmaxy ∧ cy ≥ tminy))
    (hBL : ¬ (pminx ≤ tmaxx ∧ cx ≥ tminx ∧ cy ≤ tmaxy ∧ pmaxy ≥ tminy)) :
    tmaxx ≤ cx ∧ tmaxy ≤ cy := by
  obtain ⟨a1, a2, a3, a4⟩ := hTL
  constructor
  · by_contra h
    exact hTR ⟨by linarith, by linarith, by linarith, by linarith⟩
  · by_contra h
    exact hBL ⟨by linarith, by linarith, by linarith, by linarith⟩

theorem cover_tr (cx cy tminx tminy tmaxx tmaxy pminx pminy pmaxx pmaxy : ℚ)
    (hv1 : tminx ≤ tmaxx) (hv2 : tminy ≤ tmaxy)
    (hin1 : pminx ≤ tminx) (hin2 : tmaxx ≤ pmaxx) (hin3 : pminy ≤ tminy)
    (hin4 : tmaxy ≤ pmaxy)
    (hTR : cx ≤ tmaxx ∧ pmaxx ≥ tminx ∧ pminy ≤ tmaxy ∧ cy ≥ tminy)
    (hTL : ¬ (pminx ≤ tmaxx ∧ cx ≥ tminx ∧ pminy ≤ tmaxy ∧ cy ≥ tminy))
    (hBR : ¬ (cx ≤ tmaxx ∧ pmaxx ≥ tminx ∧ cy ≤ tmaxy ∧ pmaxy ≥ tminy)) :
    cx ≤ tminx ∧ tmaxy ≤ cy := by
  obtain ⟨a1, a2, a3, a4⟩ := hTR
  constructor
  · by_contra h
    exact hTL ⟨by linarith, by linarith, by linarith, by linarith⟩
  · by_contra h
    exact hBR ⟨by linarith, by linarith, by linarith, by linarith⟩

theorem cover_bl (cx cy tminx tminy tmaxx tmaxy pminx pminy pmaxx pmaxy : ℚ)
    (hv1 : tminx ≤ tmaxx) (hv2 : tminy ≤ tmaxy)
    (hin1 : pminx ≤ tminx) (hin2 : tmaxx ≤ pmaxx) (hin3 : pminy ≤ tminy)
    (hin4 : tmaxy ≤ pmaxy)
    (hBL : pminx ≤ tmaxx ∧ cx ≥ tminx ∧ cy ≤ tmaxy ∧ pmaxy ≥ tminy)
    (hTL : ¬ (pminx ≤ tmaxx ∧ cx ≥ tminx ∧ pminy ≤ tmaxy ∧ cy ≥ tminy))
    (hBR : ¬ (cx ≤ tmaxx ∧ pmaxx ≥ tminx ∧ cy ≤ tmaxy ∧ pmaxy ≥ tminy)) :
    tmaxx ≤ cx ∧ cy ≤ tminy := by
  obtain ⟨a1, a2, a3, a4⟩ := hBL
  constructor
  · by_contra h
    exact hBR ⟨by linarith, by linarith, by linarith, by linarith⟩
  · by_contra h
    exact hTL ⟨by linarith, by linarith, by linarith, by linarith⟩

theorem cover_br (cx cy tminx tminy tmaxx tmaxy pminx pminy pmaxx pmaxy : ℚ)
    (hv1 : tminx ≤ tmaxx) (hv2 : tminy ≤ tmaxy)
    (hin1 : pminx ≤ tminx) (hin2 : tmaxx ≤ pmaxx) (hin3 : pminy ≤ tminy)
    (hin4 : tmaxy ≤ pmaxy)
    (hBR : cx ≤ tmaxx ∧ pmaxx ≥ tminx ∧ cy ≤ tmaxy ∧ pmaxy ≥ tminy)
    (hTR : ¬ (cx ≤ tmaxx ∧ pmaxx ≥ tminx ∧ pminy ≤ tmaxy ∧ cy ≥ tminy))
    (hBL : ¬ (pminx ≤ tmaxx ∧ cx ≥ tminx ∧ cy ≤ tmaxy ∧ pmaxy ≥ tminy)) :
    cx ≤ tminx ∧ cy ≤ tminy := by
  obtain ⟨a1, a2, a3, a4⟩ := hBR
  constructor
  · by_contra h
    exact hBL ⟨by linarith, by linarith, by linarith, by linarith⟩
  · by_contra h
    exact hTR ⟨by linarith, by linarith, by linarith, by linarith⟩

theorem smallest_step_inside (ns : List StaticQuadTreeNode) (target : Rect2D)
    (hst : StructWF ns) (cur : Nat) (cs : Nat × Nat × Nat × Nat)
    (hc : (nd ns cur).children = some cs)
    (htv : target.valid)
    (hin : target.insideOf (nd ns cur).bounds)
    (hms : ([cs.1, cs.2.1, cs.2.2.1, cs.2.2.2].filter
      fun child => (nd ns child).bounds.intersect target).length = 1) :
    target.insideOf
      (nd ns (([cs.1, cs.2.1, cs.2.2.1, cs.2.2.2].filter
        fun child => (nd ns child).bounds.intersect target).getD 0 0)).bounds := by
  obtain ⟨hq1, hq2, hq3, hq4⟩ := hst cur cs hc
  obtain ⟨htv1, htv2⟩ := htv
  obtain ⟨hin1, hin2, hin3, hin4⟩ := hin
  cases hp1 : (nd ns cs.1).bounds.intersect target <;>
    cases hp2 : (nd ns cs.2.1).bounds.intersect target <;>
    cases hp3 : (nd ns cs.2.2.1).bounds.intersect target <;>
    cases hp4 : (nd ns cs.2.2.2).bounds.intersect target <;>
    simp [hp1, hp2, hp3, hp4] at hms ⊢
  · -- only BR intersects
    rw [hq4] at hp4
    rw [hq2] at hp2
    rw [hq3] at hp3
    rw [Rect2D.intersect_eq_true_iff] at hp4
    rw [Rect2D.intersect_eq_false_iff] at hp2 hp3
    simp only [Rect2D.new] at hp2 hp3 hp4
    obtain ⟨g1, g2⟩ := cover_br ((nd ns cur).bounds.center.x) ((nd ns cur).bounds.center.y)
      target.min.x target.min.y target.max.x target.max.y
      (nd ns cur).bounds.min.x (nd ns cur).bounds.min.y
      (nd ns cur).bounds.max.x (nd ns cur).bounds.max.y
      htv1 htv2 hin1 hin2 hin3 hin4 hp4 hp2 hp3
    rw [hq4]
    exact ⟨g1, hin2, g2, hin4⟩
  · -- only BL intersects
    rw [hq3] at hp3
    rw [hq1] at hp1
    rw [hq4] at hp4
    rw [Rect2D.intersect_eq_true_iff] at hp3
    rw [Rect2D.intersect_eq_false_iff] at hp1 hp4
    simp only [Rect2D.new] at hp1 hp3 hp4
    obtain ⟨g1, g2⟩ := cover_bl ((nd ns cur).bounds.center.x) ((nd ns cur).bounds.center.y)
      target.min.x target.min.y target.max.x target.max.y
      (nd ns cur).bounds.min.x (nd ns cur).bounds.min.y
      (nd ns cur).bounds.max.x (nd ns cur).bounds.max.y
      htv1 htv2 hin1 hin2 hin3 hin4 hp3 hp1 hp4
    rw [hq3]
    exact ⟨hin1, g1, g2, hin4⟩
  · -- only TR intersects
    rw [hq2] at hp2
    rw [hq1] at hp1
    rw [hq4] at hp4
    rw [Rect2D.intersect_eq_true_iff] at hp2
    rw [Rect2D.intersect_eq_false_iff] at hp1 hp4
    simp only [Rect2D.new] at hp1 hp2 hp4
    obtain ⟨g1, g2⟩ := cover_tr ((nd ns cur).bounds.center.x) ((nd ns cur).bounds.center.y)
      target.min.x target.min.y target.max.x target.max.y
      (nd ns cur).bounds.min.x (nd ns cur).bounds.min.y
      (nd ns cur).bounds.max.x (nd ns cur).bounds.max.y
      htv1 htv2 hin1 hin2 hin3 hin4 hp2 hp1 hp4
    rw [hq2]
    exact ⟨g1, hin2, hin3, g2⟩
  · -- only TL intersects
    rw [hq1] at hp1
    rw [hq2] at hp2
    rw [hq3] at hp3
    rw [Rect2D.intersect_eq_true_iff] at hp1
    rw [Rect2D.intersect_eq_false_iff] at hp2 hp3
    simp only [Rect2D.new] at hp1 hp2 hp3
    obtain ⟨g1, g2⟩ := cover_tl ((nd ns cur).bounds.center.x) ((nd ns cur).bounds.center.y)
      target.min.x target.min.y target.max.x target.max.y
      (nd ns cur).bounds.min.x (nd ns cur).bounds.min.y
      (nd ns cur).bounds.max.x (nd ns cur).bounds.max.y
      htv1 htv2 hin1 hin2 hin3 hin4 hp1 hp2 hp3
    rw [hq1]
    exact ⟨hin1, g1, hin3, g2⟩

theorem inside_intersect (P ta tb : Rect2D) (hin : tb.insideOf P)
    (hab : ta.intersect tb = true) : P.intersect ta = true := by
  rw [Rect2D.intersect_eq_true_iff] at hab ⊢
  obtain ⟨a1, a2, a3, a4⟩ := hab
  obtain ⟨i1, i2, i3, i4⟩ := hin
  exact ⟨by linarith, by linarith, by linarith, by linarith⟩

theorem smallest_reach_chain (ns : List StaticQuadTreeNode) (ta tb : Rect2D)
    (hst : StructWF ns) (htv : tb.valid) (hab : ta.intersect tb = true) :
    ∀ fuel cur, tb.insideOf (nd ns cur).bounds →
      ReachChain ns ta cur (smallestNodeAux ns tb fuel cur) := by
  intro fuel
  induction fuel with
  | zero =>
    intro cur hin
    rw [smallestNodeAux]
    exact ReachChain.here cur (inside_intersect _ _ _ hin hab)
  | succ f ih =>
    intro cur hin
    rw [smallestNodeAux]
    rcases hc : (nd ns cur).children with _ | cs <;> simp only [hc]
    · exact ReachChain.here cur (inside_intersect _ _ _ hin hab)
    · by_cases hm : (([cs.1, cs.2.1, cs.2.2.1, cs.2.2.2].filter
          fun child => (nd ns child).bounds.intersect tb)).length = 1
      · simp only [hm, if_true]
        have hstep := smallest_step_inside ns tb hst cur cs hc htv hin hm
        have hmemp := mem_of_filter_getD [cs.1, cs.2.1, cs.2.2.1, cs.2.2.2]
          (fun child => (nd ns child).bounds.intersect tb) (by omega)
        exact ReachChain.step cur _ _ cs hc (by simpa using hmemp.1)
          (inside_intersect _ _ _ hin hab) (ih _ hstep)
      · simp only [hm, if_false]
        exact ReachChain.here cur (inside_intersect _ _ _ hin hab)

theorem scanBucket_mem (a : Body) :
    ∀ (contents : List (Nat × Rect2D)) (events : List (Nat × Nat)) (p : Nat × Nat),
      p ∈ scanBucket a events contents ↔
        p ∈ events ∨ ∃ bp ∈ contents, a.id ≠ bp.1 ∧
          (bodyRect a).intersect bp.2 = true ∧ p = (a.id, bp.1) := by
  intro contents
  induction contents with
  | nil => intro evs p; simp [scanBucket]
  | cons bp rest ih =>
    intro evs p
    have hstep : scanBucket a evs (bp :: rest) =
        scanBucket a (if a.id ≠ bp.1 ∧ (bodyRect a).intersect bp.2 = true then
          evs ++ [(a.id, bp.1)] else evs) rest := rfl
    rw [hstep, ih]
    by_cases hcond : a.id ≠ bp.1 ∧ (bodyRect a).intersect bp.2 = true
    · rw [if_pos hcond]
      simp only [List.mem_append, List.mem_singleton]
      constructor
      · rintro ((h | h) | ⟨bq, hbq, h1, h2, h3⟩)
        · exact Or.inl h
        · exact Or.inr ⟨bp, List.mem_cons_self bp rest, hcond.1, hcond.2, h⟩
        · exact Or.inr ⟨bq, List.mem_cons_of_mem _ hbq, h1, h2, h3⟩
      · rintro (h | ⟨bq, hbq, h1, h2, h3⟩)
        · exact Or.inl (Or.inl h)
        · rcases List.mem_cons.mp hbq with rfl | hbq'
          · exact Or.inl (Or.inr h3)
          · exact Or.inr ⟨bq, hbq', h1, h2, h3⟩
    · rw [if_neg hcond]
      constructor
      · rintro (h | ⟨bq, hbq, h1, h2, h3⟩)
        · exact Or.inl h
        · exact Or.inr ⟨bq, List.mem_cons_of_mem _ hbq, h1, h2, h3⟩
      · rintro (h | ⟨bq, hbq, h1, h2, h3⟩)
        · exact Or.inl h
        · rcases List.mem_cons.mp hbq with rfl | hbq'
          · exact absurd ⟨h1, h2⟩ hcond
          · exact Or.inr ⟨bq, hbq', h1, h2, h3⟩

theorem scanNode_fold_mem (si : List (Nat × List (Nat × Rect2D))) (a : Body) :
    ∀ (l : List Nat) (events : List (Nat × Nat)) (p : Nat × Nat),
      p ∈ l.foldl (scanNode si a) events ↔
        p ∈ events ∨ ∃ n ∈ l, ∃ contents, alLookup si n = some contents ∧
          ∃ bp ∈ contents, a.id ≠ bp.1 ∧
            (bodyRect a).intersect bp.2 = true ∧ p = (a.id, bp.1) := by
  intro l
  induction l with
  | nil => intro evs p; simp
  | cons n rest ih =>
    intro evs p
    rw [List.foldl_cons, ih]
    rcases hl : alLookup si n with _ | contents
    · simp only [scanNode, hl]
      constructor
      · rintro (h | ⟨m, hm, c, hc, hrest⟩)
        · exact Or.inl h
        · exact Or.inr ⟨m, List.mem_cons_of_mem _ hm, c, hc, hrest⟩
      · rintro (h | ⟨m, hm, c, hc, hrest⟩)
        · exact Or.inl h
        · rcases List.mem_cons.mp hm with rfl | hm'
          · rw [hl] at hc; cases hc
          · exact Or.inr ⟨m, hm', c, hc, hrest⟩
    · simp only [scanNode, hl]
      rw [scanBucket_mem]
      constructor
      · rintro ((h | ⟨bp, hbp, h1, h2, h3⟩) | ⟨m, hm, c, hc, bp, hbp, h1, h2, h3⟩)
        · exact Or.inl h
        · exact Or.inr ⟨n, List.mem_cons_self n rest, contents, hl, bp, hbp, h1, h2, h3⟩
        · exact Or.inr ⟨m, List.mem_cons_of_mem _ hm, c, hc, bp, hbp, h1, h2, h3⟩
      · rintro (h | ⟨m, hm, c, hc, bp, hbp, h1, h2, h3⟩)
        · exact Or.inl (Or.inl h)
        · rcases List.mem_cons.mp hm with rfl | hm'
          · rw [hl] at hc
            injection hc with hc'
            subst hc'
            exact Or.inl (Or.inr ⟨bp, hbp, h1, h2, h3⟩)
          · exact Or.inr ⟨m, hm', c, hc, bp, hbp, h1, h2, h3⟩

theorem scanA_fold_mem (t : StaticQuadTree) (si : List (Nat × List (Nat × Rect2D))) :
    ∀ (qa : List Body) (events : List (Nat × Nat)) (p : Nat × Nat),
      p ∈ qa.foldl (fun events a => scanNodes t si a events) events ↔
        p ∈ events ∨ ∃ a ∈ qa, ∃ n ∈ t.intersecting_nodes (bodyRect a),
          ∃ contents, alLookup si n = some contents ∧
            ∃ bp ∈ contents, a.id ≠ bp.1 ∧
              (bodyRect a).intersect bp.2 = true ∧ p = (a.id, bp.1) := by
  intro qa
  induction qa with
  | nil => intro evs p; simp
  | cons a rest ih =>
    intro evs p
    rw [List.foldl_cons, ih, scanNodes, scanNode_fold_mem]
    constructor
    · rintro ((h | ⟨n, hn, c, hc, hrest⟩) | ⟨a', ha', hrest⟩)
      · exact Or.inl h
      · exact Or.inr ⟨a, List.mem_cons_self a rest, n, hn, c, hc, hrest⟩
      · exact Or.inr ⟨a', List.mem_cons_of_mem _ ha', hrest⟩
    · rintro (h | ⟨a', ha', hrest⟩)
      · exact Or.inl (Or.inl h)
      · rcases List.mem_cons.mp ha' with rfl | ha''
        · exact Or.inl (Or.inr hrest)
        · exact Or.inr ⟨a', ha'', hrest⟩

theorem bucketList_mem (t : StaticQuadTree) (qb : List Body) (n : Nat) (bp : Nat × Rect2D) :
    bp ∈ bucketList t qb n ↔
      ∃ b ∈ qb, t.smallest_node (bodyRect b) = n ∧ bp = (b.id, bodyRect b) := by
  simp only [bucketList, List.mem_map, List.mem_filter, decide_eq_true_eq]
  constructor
  · rintro ⟨b, ⟨hb, hsm⟩, hbp⟩
    exact ⟨b, hb, hsm, hbp.symm⟩
  · rintro ⟨b, hb, hsm, hbp⟩
    exact ⟨b, ⟨hb, hsm⟩, hbp.symm⟩

/-- Bucket characterisation of the spatial index (shared helper). -/
theorem spatialIndex_lookup (t : StaticQuadTree) (bs : List Body) (n : Nat) :
    alLookup (buildSpatialIndex t bs) n =
      if bucketList t bs n = [] then none else some (bucketList t bs n) := by
  rw [buildSpatialIndex, alLookup_fold]
  split
  · rfl
  · simp [alLookup]

/-- The events of one `check_collisions` run, characterised: pair `(x, y)`
is reported iff some `a` in A and `b` in B have ids `x ≠ y`, their rects
intersect, and `smallest_node` of `b`'s rect is among the intersecting
nodes of `a`'s rect. -/
theorem check_collisions_mem (t : StaticQuadTree) (qa qb : List Body) (p : Nat × Nat) :
    p ∈ check_collisions t qa qb ↔
      ∃ a ∈ qa, ∃ b ∈ qb, a.id ≠ b.id ∧
        (bodyRect a).intersect (bodyRect b) = true ∧
        t.smallest_node (bodyRect b) ∈ t.intersecting_nodes (bodyRect a) ∧
        p = (a.id, b.id) := by
  simp only [check_collisions]
  rw [scanA_fold_mem]
  simp only [List.not_mem_nil, false_or]
  constructor
  · rintro ⟨a, ha, n, hn, c, hc, bp, hbp, h1, h2, h3⟩
    rw [spatialIndex_lookup] at hc
    by_cases hempty : bucketList t qb n = []
    · rw [if_pos hempty] at hc; cases hc
    · rw [if_neg hempty] at hc
      injection hc with hc'
      subst hc'
      obtain ⟨b, hb, hsm, hbp_eq⟩ := (bucketList_mem t qb n bp).mp hbp
      subst hbp_eq
      exact ⟨a, ha, b, hb, h1, h2, hsm ▸ hn, h3⟩
  · rintro ⟨a, ha, b, hb, h1, h2, hmem, h3⟩
    have hbmem : (b.id, bodyRect b) ∈ bucketList t qb (t.smallest_node (bodyRect b)) :=
      (bucketList_mem t qb _ _).mpr ⟨b, hb, rfl, rfl⟩
    refine ⟨a, ha, t.smallest_node (bodyRect b), hmem,
      bucketList t qb (t.smallest_node (bodyRect b)), ?_, (b.id, bodyRect b),
      hbmem, h1, h2, h3⟩
    rw [spatialIndex_lookup, if_neg (List.ne_nil_of_mem hbmem)]

/-- C9: the set of reported pairs is a function of the tree and the two body
sets alone — the iteration orders (Bevy query order, `HashMap`/`HashSet`
iteration) may permute between runs without changing membership. -/
theorem claim_C9_determinism (t : StaticQuadTree) (qa qb qa' qb' : List Body)
    (h1 : qa.Perm qa') (h2 : qb.Perm qb') (p : Nat × Nat) :
    p ∈ check_collisions t qa qb ↔ p ∈ check_collisions t qa' qb' := by
  rw [check_collisions_mem, check_collisions_mem]
  constructor
  · rintro ⟨a, ha, b, hb, hrest⟩
    exact ⟨a, h1.mem_iff.mp ha, b, h2.mem_iff.mp hb, hrest⟩
  · rintro ⟨a, ha, b, hb, hrest⟩
    exact ⟨a, h1.mem_iff.mpr ha, b, h2.mem_iff.mpr hb, hrest⟩

theorem claim_C9_witness :
    ((1 : Nat), (3 : Nat)) ∈ check_collisions (StaticQuadTree.new ⟨16, 16⟩ 1)
        [⟨1, ⟨0, 0⟩, AxisAlignedBoundingBox.new 8 8⟩,
         ⟨2, ⟨0, 0⟩, AxisAlignedBoundingBox.new 8 8⟩]
        [⟨3, ⟨0, 0⟩, AxisAlignedBoundingBox.new 8 8⟩] ↔
      ((1 : Nat), (3 : Nat)) ∈ check_collisions (StaticQuadTree.new ⟨16, 16⟩ 1)
        [⟨2, ⟨0, 0⟩, AxisAlignedBoundingBox.new 8 8⟩,
         ⟨1, ⟨0, 0⟩, AxisAlignedBoundingBox.new 8 8⟩]
        [⟨3, ⟨0, 0⟩, AxisAlignedBoundingBox.new 8 8⟩] :=
  claim_C9_determinism (StaticQuadTree.new ⟨16, 16⟩ 1) _ _ _ _
    (List.Perm.swap ⟨2, ⟨0, 0⟩, AxisAlignedBoundingBox.new 8 8⟩
      ⟨1, ⟨0, 0⟩, AxisAlignedBoundingBox.new 8 8⟩ [])
    (List.Perm.refl _) (1, 3)

/-- C2 (amended): completeness of the collision pass for bodies whose
category-B rectangle is a valid rectangle lying within the world bounds:
for every `a` in A and `b` in B with distinct ids and intersecting rects,
one run of `check_collisions` reports the pair `(a, b)`. -/
theorem claim_C2_completeness (screenSize : Vec2) (maxDepth : Nat)
    (qa qb : List Body) (a b : Body)
    (ha : a ∈ qa) (hb : b ∈ qb) (hid : a.id ≠ b.id)
    (hint : (bodyRect a).intersect (bodyRect b) = true)
    (hv : (bodyRect b).valid)
    (hin : (bodyRect b).insideOf (rootRect screenSize)) :
    (a.id, b.id) ∈ check_collisions (StaticQuadTree.new screenSize maxDepth) qa qb := by
  rw [check_collisions_mem]
  refine ⟨a, ha, b, hb, hid, hint, ?_, rfl⟩
  have hst := new_struct_wf screenSize maxDepth
  have hwf := new_children_wf screenSize maxDepth
  have hlen : 0 < (StaticQuadTree.new screenSize maxDepth).nodes.length := by
    rw [new_length]; omega
  have hin0 : (bodyRect b).insideOf
      (nd (StaticQuadTree.new screenSize maxDepth).nodes 0).bounds := by
    rw [new_root_bounds]; exact hin
  have hchain := smallest_reach_chain _ (bodyRect a) (bodyRect b) hst hv hint
    (StaticQuadTree.new screenSize maxDepth).nodes.length 0 hin0
  exact intersectAux_reach _ (bodyRect a) hwf _ 0 [] _ hlen (by omega) hchain

theorem claim_C2_witness :
    ((1 : Nat), (2 : Nat)) ∈ check_collisions (StaticQuadTree.new ⟨16, 16⟩ 2)
      [⟨1, ⟨0, 0⟩, AxisAlignedBoundingBox.new 8 8⟩]
      [⟨2, ⟨0, 0⟩, AxisAlignedBoundingBox.new 8 8⟩] :=
  claim_C2_completeness ⟨16, 16⟩ 2
    [⟨1, ⟨0, 0⟩, AxisAlignedBoundingBox.new 8 8⟩]
    [⟨2, ⟨0, 0⟩, AxisAlignedBoundingBox.new 8 8⟩]
    ⟨1, ⟨0, 0⟩, AxisAlignedBoundingBox.new 8 8⟩
    ⟨2, ⟨0, 0⟩, AxisAlignedBoundingBox.new 8 8⟩ (by simp) (by simp) (by decide)
    (by rw [Rect2D.intersect_eq_true_iff]
        norm_num [bodyRect, AxisAlignedBoundingBox.new, AxisAlignedBoundingBox.as_rect,
          Rect2D.new])
    (by norm_num [Rect2D.valid, bodyRect, AxisAlignedBoundingBox.new,
          AxisAlignedBoundingBox.as_rect, Rect2D.new])
    (by norm_num [Rect2D.insideOf, rootRect, bodyRect, AxisAlignedBoundingBox.new,
          AxisAlignedBoundingBox.as_rect, Rect2D.new, Vec2.zero])

/-- C2 as stated is false: over the 16×16 depth-1 world, `bodyOutA` (outside
the world) and `bodyOutB` (straddling the right edge) have distinct ids and
intersecting rects, yet `check_collisions` emits no event: `bodyOutB` is
filed under the bottom-right node, while `intersecting_nodes` of
`bodyOutA`'s rect prunes at the root and returns the empty set. -/
theorem bodyOutA_rect : bodyRect bodyOutA = ⟨⟨17/2, 1/2⟩, ⟨21/2, 3/2⟩⟩ := by
  norm_num [bodyRect, bodyOutA, AxisAlignedBoundingBox.new,
    AxisAlignedBoundingBox.as_rect, Rect2D.new]

theorem inodes_bodyOutA :
    (StaticQuadTree.new ⟨16, 16⟩ 1).intersecting_nodes (bodyRect bodyOutA) = [] := by
  rw [bodyOutA_rect, tree16_eq]
  norm_num [StaticQuadTree.intersecting_nodes, intersectAux, nd, List.getD,
    Rect2D.intersect]

theorem claim_C2_counterexample :
    check_collisions (StaticQuadTree.new ⟨16, 16⟩ 1) [bodyOutA] [bodyOutB] = [] ∧
    (bodyRect bodyOutA).intersect (bodyRect bodyOutB) = true ∧
    bodyOutA.id ≠ bodyOutB.id := by
  refine ⟨?_, ?_, by decide⟩
  · simp only [check_collisions, List.foldl_cons, List.foldl_nil, scanNodes]
    rw [inodes_bodyOutA]
    rfl
  · rw [Rect2D.intersect_eq_true_iff]
    norm_num [bodyRect, bodyOutA, bodyOutB, AxisAlignedBoundingBox.new,
      AxisAlignedBoundingBox.as_rect, Rect2D.new]

theorem smallest_leaf_aux (ns : List StaticQuadTreeNode) (target : Rect2D)
    (hwf : ChildrenWF ns) (hst : StructWF ns) (hv : ValidBounds ns)
    (L : Nat) (hLleaf : (nd ns L).children = none)
    (htv : target.valid)
    (hstrict : (nd ns L).bounds.min.x < target.min.x ∧
      target.max.x < (nd ns L).bounds.max.x ∧
      (nd ns L).bounds.min.y < target.min.y ∧
      target.max.y < (nd ns L).bounds.max.y) :
    ∀ fuel cur, cur < ns.length → ns.length - cur ≤ fuel → Desc ns cur L →
      (nd ns (smallestNodeAux ns target fuel cur)).children = none := by
  obtain ⟨t1, t2⟩ := htv
  obtain ⟨s1, s2, s3, s4⟩ := hstrict
  intro fuel
  induction fuel with
  | zero => intro cur h1 h2 _; omega
  | succ f ih =>
    intro cur hcur hfuel hdesc
    rw [smallestNodeAux]
    rcases hc : (nd ns cur).children with _ | cs
    · simp only [hc]
    · simp only [hc]
      cases hdesc with
      | refl => rw [hLleaf] at hc; cases hc
      | step _ c _ cs' hc' hmem htail =>
        rw [hc] at hc'
        injection hc' with he
        subst he
        have hLin := desc_insideOf ns hst hv htail
        obtain ⟨q1, q2, q3, q4⟩ := hst cur cs hc
        have hwfc := hwf cur cs hc
        rcases hmem with rfl | rfl | rfl | rfl
        · rw [q1] at hLin
          simp only [Rect2D.new] at hLin
          obtain ⟨li1, li2, li3, li4⟩ := hLin
          have hp1 : (nd ns cs.1).bounds.intersect target = true := by
            rw [q1, Rect2D.intersect_eq_true_iff]
            simp only [Rect2D.new]
            exact ⟨by linarith, by linarith, by linarith, by linarith⟩
          have hp2 : (nd ns cs.2.1).bounds.intersect target = false := by
            rw [q2, Rect2D.intersect_eq_false_iff]
            simp only [Rect2D.new]
            rintro ⟨w1, w2, w3, w4⟩
            linarith
          have hp3 : (nd ns cs.2.2.1).bounds.intersect target = false := by
            rw [q3, Rect2D.intersect_eq_false_iff]
            simp only [Rect2D.new]
            rintro ⟨w1, w2, w3, w4⟩
            linarith
          have hp4 : (nd ns cs.2.2.2).bounds.intersect target = false := by
            rw [q4, Rect2D.intersect_eq_false_iff]
            simp only [Rect2D.new]
            rintro ⟨w1, w2, w3, w4⟩
            linarith
          simp only [List.filter, hp1, hp2, hp3, hp4]
          simp
          exact ih cs.1 (by omega) (by omega) htail
        · rw [q2] at hLin
          simp only [Rect2D.new] at hLin
          obtain ⟨li1, li2, li3, li4⟩ := hLin
          have hp1 : (nd ns cs.1).bounds.intersect target = false := by
            rw [q1, Rect2D.intersect_eq_false_iff]
            simp only [Rect2D.new]
            rintro ⟨w1, w2, w3, w4⟩
            linarith
          have hp2 : (nd ns cs.2.1).bounds.intersect target = true := by
            rw [q2, Rect2D.intersect_eq_true_iff]
            simp only [Rect2D.new]
            exact ⟨by linarith, by linarith, by linarith, by linarith⟩
          have hp3 : (nd ns cs.2.2.1).bounds.intersect target = false := by
            rw [q3, Rect2D.intersect_eq_false_iff]
            simp only [Rect2D.new]
            rintro ⟨w1, w2, w3, w4⟩
            linarith
          have hp4 : (nd ns cs.2.2.2).bounds.intersect target = false := by
            rw [q4, Rect2D.intersect_eq_false_iff]
            simp only [Rect2D.new]
            rintro ⟨w1, w2, w3, w4⟩
            linarith
          simp only [List.filter, hp1, hp2, hp3, hp4]
          simp
          exact ih cs.2.1 (by omega) (by omega) htail
        · rw [q3] at hLin
          simp only [Rect2D.new] at hLin
          obtain ⟨li1, li2, li3, li4⟩ := hLin
          have hp1 : (nd ns cs.1).bounds.intersect target = false := by
            rw [q1, Rect2D.intersect_eq_false_iff]
            simp only [Rect2D.new]
            rintro ⟨w1, w2, w3, w4⟩
            linarith
          have hp2 : (nd ns cs.2.1).bounds.intersect target = false := by
            rw [q2, Rect2D.intersect_eq_false_iff]
            simp only [Rect2D.new]
            rintro ⟨w1, w2, w3, w4⟩
            linarith
          have hp3 : (nd ns cs.2.2.1).bounds.intersect target = true := by
            rw [q3, Rect2D.intersect_eq_true_iff]
            simp only [Rect2D.new]
            exact ⟨by linarith, by linarith, by linarith, by linarith⟩
          have hp4 : (nd ns cs.2.2.2).bounds.intersect target = false := by
            rw [q4, Rect2D.intersect_eq_false_iff]
            simp only [Rect2D.new]
            rintro ⟨w1, w2, w3, w4⟩
            linarith
          simp only [List.filter, hp1, hp2, hp3, hp4]
          simp
          exact ih cs.2.2.1 (by omega) (by omega) htail
        · rw [q4] at hLin
          simp only [Rect2D.new] at hLin
          obtain ⟨li1, li2, li3, li4⟩ := hLin
          have hp1 : (nd ns cs.1).bounds.intersect target = false := by
            rw [q1, Rect2D.intersect_eq_false_iff]
            simp only [Rect2D.new]
            rintro ⟨w1, w2, w3, w4⟩
            linarith
          have hp2 : (nd ns cs.2.1).bounds.intersect target = false := by
            rw [q2, Rect2D.intersect_eq_false_iff]
            simp only [Rect2D.new]
            rintro ⟨w1, w2, w3, w4⟩
            linarith
          have hp3 : (nd ns cs.2.2.1).bounds.intersect target = false := by
            rw [q3, Rect2D.intersect_eq_false_iff]
            simp only [Rect2D.new]
            rintro ⟨w1, w2, w3, w4⟩
            linarith
          have hp4 : (nd ns cs.2.2.2).bounds.intersect target = true := by
            rw [q4, Rect2D.intersect_eq_true_iff]
            simp only [Rect2D.new]
            exact ⟨by linarith, by linarith, by linarith, by linarith⟩
          simp only [List.filter, hp1, hp2, hp3, hp4]
          simp
          exact ih cs.2.2.2 (by omega) (by omega) htail

/-- C6: on a tree built by `StaticQuadTree::new` over a well-formed world
(non-negative size), `smallest_node` applied to a valid target rectangle
lying strictly inside the bounds of some childless (leaf-depth) node — not
touching any quadrant boundary — returns a node whose `children` field is
`None`. -/
theorem claim_C6_smallest_node_leaf (screenSize : Vec2) (maxDepth : Nat)
    (target : Rect2D) (hsx : 0 ≤ screenSize.x) (hsy : 0 ≤ screenSize.y)
    (L : Nat) (hL : L < (StaticQuadTree.new screenSize maxDepth).nodes.length)
    (hLleaf : (nd (StaticQuadTree.new screenSize maxDepth).nodes L).children = none)
    (htv : target.valid)
    (hstrict :
      (nd (StaticQuadTree.new screenSize maxDepth).nodes L).bounds.min.x < target.min.x ∧
      target.max.x < (nd (StaticQuadTree.new screenSize maxDepth).nodes L).bounds.max.x ∧
      (nd (StaticQuadTree.new screenSize maxDepth).nodes L).bounds.min.y < target.min.y ∧
      target.max.y < (nd (StaticQuadTree.new screenSize maxDepth).nodes L).bounds.max.y) :
    (nd (StaticQuadTree.new screenSize maxDepth).nodes
      ((StaticQuadTree.new screenSize maxDepth).smallest_node target)).children = none := by
  have hwf := new_children_wf screenSize maxDepth
  have hst := new_struct_wf screenSize maxDepth
  have hv := new_valid_bounds screenSize maxDepth hsx hsy
  have hlen : 0 < (StaticQuadTree.new screenSize maxDepth).nodes.length := by
    rw [new_length]; omega
  exact smallest_leaf_aux _ target hwf hst hv L hLleaf htv hstrict _ 0 hlen (by omega)
    (new_desc screenSize maxDepth L hL)

theorem claim_C6_witness :
    (nd (StaticQuadTree.new ⟨16, 16⟩ 1).nodes
      ((StaticQuadTree.new ⟨16, 16⟩ 1).smallest_node ⟨⟨1, 1⟩, ⟨2, 2⟩⟩)).children = none :=
  claim_C6_smallest_node_leaf ⟨16, 16⟩ 1 ⟨⟨1, 1⟩, ⟨2, 2⟩⟩ (by norm_num) (by norm_num)
    4 (by rw [new_length]; norm_num [g4])
    (by rw [tree16_eq]; rfl)
    (by exact ⟨by norm_num, by norm_num⟩)
    (by rw [tree16_eq]; refine ⟨?_, ?_, ?_, ?_⟩ <;> norm_num [nd, List.getD])

